import Mathlib

/-!
Verification development for the `rss-feeds` aggregation pipeline.

The TypeScript sources (`src/rss-parser.ts`, `src/feed-aggregator.ts`, the
`RSSFeedBuilder` class of `src/index.ts`, `src/types.ts`) are shallowly
embedded below.  JavaScript strings are `List Char`; the regex-based
extraction primitives of the parser are embedded as explicit scanners with
the exact leftmost-match / lazy-group / case-insensitive semantics of the
concrete regular expressions appearing in the source; `Array.prototype.sort`
is embedded as a stable sort over the source comparator, with the ECMAScript
rule that a NaN comparator result counts as 0; `Date` values are
`Option Int` (`none` = Invalid Date, whose `getTime()` is NaN).
-/

/-- JS strings are modelled as lists of characters. -/
abbrev Str := List Char

/-- The character list of a Lean string literal. -/
def S (s : String) : Str := s.toList

/-- The double-quote character (kept out of string literals on purpose). -/
def qm : Char := Char.ofNat 34

/-- The apostrophe character. -/
def apos : Char := Char.ofNat 39

/-- ASCII lower-casing of a single character.  This models the case
canonicalisation applied by the `i` flag of the regular expressions in
`rss-parser.ts` (all tag names involved are ASCII). -/
def lowerC : Char → Char
  | 'A' => 'a' | 'B' => 'b' | 'C' => 'c' | 'D' => 'd' | 'E' => 'e' | 'F' => 'f'
  | 'G' => 'g' | 'H' => 'h' | 'I' => 'i' | 'J' => 'j' | 'K' => 'k' | 'L' => 'l'
  | 'M' => 'm' | 'N' => 'n' | 'O' => 'o' | 'P' => 'p' | 'Q' => 'q' | 'R' => 'r'
  | 'S' => 's' | 'T' => 't' | 'U' => 'u' | 'V' => 'v' | 'W' => 'w' | 'X' => 'x'
  | 'Y' => 'y' | 'Z' => 'z'
  | c => c

/-- `prefW f p s`: does `s` start with `p`, comparing characters through the
normaliser `f` (`id` for exact matching, `lowerC` for case-insensitive)? -/
def prefW (f : Char → Char) : Str → Str → Bool
  | [], _ => true
  | _ :: _, [] => false
  | p :: ps, c :: cs => (f p == f c) && prefW f ps cs

/-- `subW f pat s`: does `pat` occur as a (normalised) substring of `s`? -/
def subW (f : Char → Char) (pat : Str) : Str → Bool
  | [] => prefW f pat []
  | c :: rest => prefW f pat (c :: rest) || subW f pat rest

/-- Split `s` around the first (normalised) occurrence of `pat`:
returns the part before the occurrence and the part after it. -/
def splitFirstW (f : Char → Char) (pat : Str) : Str → Option (Str × Str)
  | [] => if prefW f pat [] then some ([], []) else none
  | c :: rest =>
    if prefW f pat (c :: rest) then some ([], List.drop pat.length (c :: rest))
    else
      match splitFirstW f pat rest with
      | some (b, a) => some (c :: b, a)
      | none => none

/-- The JS whitespace characters relevant to `String.prototype.trim`
(ASCII portion). -/
def isJsWs (c : Char) : Bool :=
  c == ' ' || c == '\t' || c == '\n' || c == '\r' || c == Char.ofNat 11 || c == Char.ofNat 12

/-- Model of `String.prototype.trim`. -/
def trimL (s : Str) : Str :=
  ((s.dropWhile isJsWs).reverse.dropWhile isJsWs).reverse

/-- One pass of `String.prototype.replace(/pat/g, rep)` (for a literal,
non-empty pattern): leftmost, non-overlapping matches, each replaced by
`rep`, with scanning resuming after the match.  Fuelled so that the
function is structurally recursive (the initial fuel `s.length` always
suffices: every step consumes at least one character). -/
def replaceAllF (pat rep : Str) : Nat → Str → Str
  | _, [] => []
  | 0, s => s
  | fu + 1, c :: rest =>
    if !pat.isEmpty && prefW id pat (c :: rest) then
      rep ++ replaceAllF pat rep fu (List.drop (pat.length - 1) rest)
    else
      c :: replaceAllF pat rep fu rest

/-- Model of `str.replace(/pat/g, rep)` for a literal non-empty `pat`. -/
def replaceAll (pat rep s : Str) : Str := replaceAllF pat rep s.length s

/-! ### `RSSFeedBuilder.escapeXML` and `RSSParser.decodeHTML`
(`index.ts` lines 1409-1416, `rss-parser.ts` lines 161-168), with the
exact replacement orders of the source. -/

def RSSFeedBuilder.escapeXML (s : Str) : Str :=
  replaceAll [apos] (S "&apos;")
    (replaceAll [qm] (S "&quot;")
      (replaceAll ['>'] (S "&gt;")
        (replaceAll ['<'] (S "&lt;")
          (replaceAll ['&'] (S "&amp;") s))))

def RSSParser.decodeHTML (s : Str) : Str :=
  replaceAll (S "&apos;") [apos]
    (replaceAll (S "&quot;") [qm]
      (replaceAll (S "&gt;") ['>']
        (replaceAll (S "&lt;") ['<']
          (replaceAll (S "&amp;") ['&'] s))))

/-! ### The extraction scanners of `RSSParser`

`extractTag` uses `new RegExp("<" + tag + "[^>]*>([\\s\\S]*?)</" + tag + ">", "i")`
and, when that fails and the tag carries no namespace prefix, the fallback
`new RegExp("<[^:]*:" + tag + "[^>]*>([\\s\\S]*?)</[^:]*:" + tag + ">", "i")`.
Each scanner below realises exactly the backtracking behaviour of its regex:
positions are tried left to right; `[^>]*` (resp. `[^:]*`) deterministically
runs to the first `>` (resp. `:`); the lazy group stops at the first position
where the continuation matches. -/

/-- Consume `[^>]*>` : skip to the first `>` and return what follows
(`none` when there is no `>`, in which case the regex fails at this
position). -/
def takeGt : Str → Option Str
  | [] => none
  | c :: r => if c == '>' then some r else takeGt r

/-- Consume `[^:]*:` : skip to the first `:` and return what follows. -/
def takeColon : Str → Option Str
  | [] => none
  | c :: r => if c == ':' then some r else takeColon r

/-- The literal close tag `</tag>`. -/
def closeTagOf (tag : Str) : Str := '<' :: '/' :: (tag ++ ['>'])

/-- Try the plain-tag regex at the current position. -/
def tryTagAt (tag : Str) (s : Str) : Option Str :=
  if prefW lowerC ('<' :: tag) s then
    match takeGt (List.drop (tag.length + 1) s) with
    | some s2 =>
      match splitFirstW lowerC (closeTagOf tag) s2 with
      | some (content, _) => some content
      | none => none
    | none => none
  else none

/-- Leftmost match of the plain-tag regex. -/
def scanTag (tag : Str) : Str → Option Str
  | [] => none
  | c :: rest =>
    match tryTagAt tag (c :: rest) with
    | some m => some m
    | none => scanTag tag rest

/-- Does `</[^:]*:tag>` match at the current position? -/
def nsCloseAt (tag : Str) (s : Str) : Bool :=
  match s with
  | '<' :: '/' :: r =>
    match takeColon r with
    | some r2 => prefW lowerC (tag ++ ['>']) r2
    | none => false
  | _ => false

/-- Lazy group of the namespaced regex: the shortest content followed by a
matching namespaced close tag. -/
def nsContent (tag : Str) : Str → Option Str
  | [] => none
  | c :: rest =>
    if nsCloseAt tag (c :: rest) then some []
    else
      match nsContent tag rest with
      | some content => some (c :: content)
      | none => none

/-- Try the namespaced-tag regex at the current position. -/
def tryNsAt (tag : Str) (s : Str) : Option Str :=
  match s with
  | '<' :: r =>
    match takeColon r with
    | some r2 =>
      if prefW lowerC tag r2 then
        match takeGt (List.drop tag.length r2) with
        | some s2 => nsContent tag s2
        | none => none
      else none
    | none => none
  | _ => none

/-- Leftmost match of the namespaced-tag regex. -/
def scanNs (tag : Str) : Str → Option Str
  | [] => none
  | c :: rest =>
    match tryNsAt tag (c :: rest) with
    | some m => some m
    | none => scanNs tag rest

/-- `RSSParser.extractTag` (`rss-parser.ts` lines 129-144): plain regex
first, then (for prefix-free tag names) the namespaced fallback; the
matched group is trimmed and entity-decoded. -/
def RSSParser.extractTag (xml : Str) (tagName : Str) : Option Str :=
  match scanTag tagName xml with
  | some m => some (RSSParser.decodeHTML (trimL m))
  | none =>
    if tagName.contains ':' then none
    else
      match scanNs tagName xml with
      | some m => some (RSSParser.decodeHTML (trimL m))
      | none => none

/-- The literal `<![CDATA[`. -/
def cdataOpen : Str := S "<![CDATA["

/-- The literal `]]></tag>`. -/
def cdataCloseOf (tag : Str) : Str := ']' :: ']' :: '>' :: '<' :: '/' :: (tag ++ ['>'])

/-- Try the CDATA regex `<tag[^>]*><![CDATA[([\s\S]*?)]]></tag>` at the
current position. -/
def tryCdataAt (tag : Str) (s : Str) : Option Str :=
  if prefW lowerC ('<' :: tag) s then
    match takeGt (List.drop (tag.length + 1) s) with
    | some s2 =>
      if prefW lowerC cdataOpen s2 then
        match splitFirstW lowerC (cdataCloseOf tag) (List.drop 9 s2) with
        | some (content, _) => some content
        | none => none
      else none
    | none => none
  else none

/-- Leftmost match of the CDATA regex. -/
def scanCdata (tag : Str) : Str → Option Str
  | [] => none
  | c :: rest =>
    match tryCdataAt tag (c :: rest) with
    | some m => some m
    | none => scanCdata tag rest

/-- `RSSParser.extractCDATA` (`rss-parser.ts` lines 149-156): the CDATA
body is trimmed but deliberately NOT entity-decoded. -/
def RSSParser.extractCDATA (xml : Str) (tagName : Str) : Option Str :=
  (scanCdata tagName xml).map trimL

/-! ### JS truthiness helpers (`x || y`, `if (x)`) for string and number
values. -/

/-- Truthiness of a JS string-or-null value: `null` and `""` are falsy. -/
def jsTruthyStr : Option Str → Bool
  | some s => !s.isEmpty
  | none => false

/-- `a || b` over string-or-null values. -/
def jsOrOpt (a b : Option Str) : Option Str := if jsTruthyStr a then a else b

/-- `a || d` where `d` is a plain (string) default. -/
def jsOrDefault (a : Option Str) (d : Str) : Str :=
  match a with
  | some s => if s.isEmpty then d else s
  | none => d

/-- Collapse a falsy value to `none` (models `if (x) { use x }`). -/
def jsTruthyOpt (a : Option Str) : Option Str := if jsTruthyStr a then a else none

/-- Truthiness of a JS number-or-undefined value: `undefined` and `0` are
falsy. -/
def jsTruthyInt : Option Int → Bool
  | some n => !(n == 0)
  | none => false

/-! ### JS dates

A `Date` value either holds an epoch-milliseconds timestamp or is the
Invalid Date (`getTime()` = NaN). -/

/-- `some ms`: valid date; `none`: Invalid Date. -/
abbrev JSDate := Option Int

/-- Decimal digit of an ASCII character. -/
def digitVal (c : Char) : Option Nat :=
  if '0' ≤ c ∧ c ≤ '9' then some (c.toNat - 48) else none

/-- Two ASCII digits as a number. -/
def twoDigits (a b : Char) : Option Nat :=
  match digitVal a, digitVal b with
  | some x, some y => some (10 * x + y)
  | _, _ => none

/-- Days from the civil date `(y, m, d)` to 1970-01-01 (standard civil
calendar arithmetic). -/
def daysFromCivil (y m d : Int) : Int :=
  let y' := if m ≤ 2 then y - 1 else y
  let era := Int.fdiv y' 400
  let yoe := y' - era * 400
  let mp := if m > 2 then m - 3 else m + 9
  let doy := Int.fdiv (153 * mp + 2) 5 + d - 1
  let doe := yoe * 365 + Int.fdiv yoe 4 - Int.fdiv yoe 100 + doy
  era * 146097 + doe - 719468

/-- Civil date `(y, m, d)` of a day count relative to 1970-01-01. -/
def civilFromDays (z : Int) : Int × Int × Int :=
  let z' := z + 719468
  let era := Int.fdiv z' 146097
  let doe := z' - era * 146097
  let yoe := Int.fdiv (doe - Int.fdiv doe 1460 + Int.fdiv doe 36524 - Int.fdiv doe 146096) 365
  let y := yoe + era * 400
  let doy := doe - (365 * yoe + Int.fdiv yoe 4 - Int.fdiv yoe 100)
  let mp := Int.fdiv (5 * doy + 2) 153
  let d := doy - Int.fdiv (153 * mp + 2) 5 + 1
  let m := if mp < 10 then mp + 3 else mp - 9
  (if m ≤ 2 then y + 1 else y, m, d)

/-- Model of the JS `new Date(string)` constructor, restricted to the
ISO-8601 UTC profile `YYYY-MM-DDTHH:MM:SSZ`; every other input yields the
Invalid Date.  (The platform constructor accepts more formats; the theorems
below use it only on concrete strings whose status — parseable or plainly
unparseable — agrees with the platform behaviour.) -/
def jsDateParse (s : Str) : JSDate :=
  match s with
  | [y1, y2, y3, y4, '-', m1, m2, '-', d1, d2, 'T', h1, h2, ':', i1, i2, ':', s1, s2, 'Z'] =>
    match twoDigits y1 y2, twoDigits y3 y4, twoDigits m1 m2, twoDigits d1 d2,
          twoDigits h1 h2, twoDigits i1 i2, twoDigits s1 s2 with
    | some yh, some yl, some mo, some dy, some hh, some mi, some ss =>
      if 1 ≤ mo ∧ mo ≤ 12 ∧ 1 ≤ dy ∧ dy ≤ 31 ∧ hh ≤ 23 ∧ mi ≤ 59 ∧ ss ≤ 59 then
        some (((daysFromCivil (100 * yh + yl) mo dy) * 86400
                + hh * 3600 + mi * 60 + ss) * 1000)
      else none
    | _, _, _, _, _, _, _ => none
  | _ => none

/-- Decimal digits of a natural number (`String(n)` for `n : Nat`). -/
def natStr (n : Nat) : Str := Nat.toDigits 10 n

/-- `String(n)` for an integer. -/
def intStr (n : Int) : Str :=
  if n < 0 then '-' :: natStr n.natAbs else natStr n.natAbs

/-- `String(n).padStart(2, "0")`. -/
def pad2 (n : Nat) : Str := if n < 10 then '0' :: natStr n else natStr n

/-- `RSSFeedBuilder.formatDate` (`index.ts` lines 1421-1434): RFC-822 style
output from the UTC fields.  For the Invalid Date every `getUTC*` call is
NaN and the day/month lookups are `undefined`, which is what the string in
the first branch spells out. -/
def RSSFeedBuilder.formatDate (date : JSDate) : Str :=
  match date with
  | none => S "undefined, NaN undefined NaN NaN:NaN:NaN GMT"
  | some ms =>
    let days := Int.fdiv ms 86400000
    let msod := (ms - days * 86400000).toNat
    let c := civilFromDays days
    let wd := (days + 4 - 7 * Int.fdiv (days + 4) 7).toNat
    let dayName := (([S "Sun", S "Mon", S "Tue", S "Wed", S "Thu", S "Fri", S "Sat"]).getD wd [])
    let monName := (([S "Jan", S "Feb", S "Mar", S "Apr", S "May", S "Jun", S "Jul",
                      S "Aug", S "Sep", S "Oct", S "Nov", S "Dec"]).getD (c.2.1 - 1).toNat [])
    dayName ++ S ", " ++ pad2 c.2.2.toNat ++ [' '] ++ monName ++ [' '] ++ intStr c.1
      ++ [' '] ++ pad2 (msod / 3600000) ++ [':'] ++ pad2 (msod / 60000 % 60)
      ++ [':'] ++ pad2 (msod / 1000 % 60) ++ S " GMT"

/-! ### The data model (`types.ts`) -/

structure FeedEnclosure where
  url : Str
  length : Int
  type : Str
deriving DecidableEq, Repr

structure FeedSource where
  url : Str
  title : Str
deriving DecidableEq, Repr

structure FeedItem where
  title : Str
  link : Str
  description : Str
  author : Option Str := none
  category : Option Str := none
  comments : Option Str := none
  enclosure : Option FeedEnclosure := none
  guid : Option Str := none
  pubDate : Option JSDate := none
  source : Option FeedSource := none
deriving DecidableEq, Repr

structure FeedImage where
  url : Str
  title : Str
  link : Str
  width : Option Int := none
  height : Option Int := none
  description : Option Str := none
deriving DecidableEq, Repr

structure FeedConfig where
  title : Str
  description : Str
  link : Str
  language : Option Str := none
  copyright : Option Str := none
  managingEditor : Option Str := none
  webMaster : Option Str := none
  pubDate : Option JSDate := none
  lastBuildDate : Option JSDate := none
  category : Option Str := none
  generator : Option Str := none
  docs : Option Str := none
  ttl : Option Int := none
  image : Option FeedImage := none
deriving DecidableEq, Repr

structure SourceFeed where
  url : Str
  title : Str
deriving DecidableEq, Repr

/-! ### `RSSParser.parseRSS` / `RSSParser.parseAtom` (`rss-parser.ts`) -/

/-- The spans matched by `/<open>([\s\S]*?)<\/open>/gi`-style global item
extraction: repeatedly take the text between the next `<tag>` and the
first `</tag>` after it.  Fuelled for structural recursion; fuel
`s.length` always suffices. -/
def tagSpansF (openT closeT : Str) : Nat → Str → List Str
  | 0, _ => []
  | fu + 1, s =>
    match splitFirstW lowerC openT s with
    | none => []
    | some (_, rest1) =>
      match splitFirstW lowerC closeT rest1 with
      | none => []
      | some (span, rest2) => span :: tagSpansF openT closeT fu rest2

def tagSpans (openT closeT : Str) (xml : Str) : List Str :=
  tagSpansF openT closeT xml.length xml

/-- The per-item body of the `parseRSS` loop (`rss-parser.ts` lines 35-65). -/
def RSSParser.parseRSSItem (itemXML sourceUrl : Str) (sourceTitle : Option Str) : FeedItem :=
  { title := jsOrDefault (RSSParser.extractTag itemXML (S "title")) (S "Untitled")
    link := jsOrDefault (RSSParser.extractTag itemXML (S "link")) []
    description := jsOrDefault
      (jsOrOpt (RSSParser.extractCDATA itemXML (S "description"))
               (RSSParser.extractTag itemXML (S "description"))) []
    author := jsTruthyOpt (jsOrOpt (RSSParser.extractTag itemXML (S "author"))
                                   (RSSParser.extractTag itemXML (S "dc:creator")))
    category := jsTruthyOpt (RSSParser.extractTag itemXML (S "category"))
    guid := jsTruthyOpt (RSSParser.extractTag itemXML (S "guid"))
    pubDate := (jsTruthyOpt (jsOrOpt (RSSParser.extractTag itemXML (S "pubDate"))
                                     (RSSParser.extractTag itemXML (S "dc:date")))).map jsDateParse
    source := match sourceTitle with
              | some t => if t.isEmpty then none else some ⟨sourceUrl, t⟩
              | none => none }

def RSSParser.parseRSS (xmlContent sourceUrl : Str) (sourceTitle : Option Str) : List FeedItem :=
  (tagSpans (S "<item>") (S "</item>") xmlContent).map
    (fun itemXML => RSSParser.parseRSSItem itemXML sourceUrl sourceTitle)

/-- Match `href=["']([^"']+)["']` at the current position (after the `i`
flag, `href=` is matched case-insensitively). -/
def hrefTry (s : Str) : Option Str :=
  if prefW lowerC (S "href=") s then
    match List.drop 5 s with
    | q :: rest =>
      if q == qm || q == apos then
        let content := rest.takeWhile (fun c => !(c == qm || c == apos))
        if content.isEmpty then none
        else if (List.drop content.length rest).isEmpty then none
        else some content
      else none
    | [] => none
  else none

/-- The `[^>]*href=...` part of `/<link[^>]*href=["']([^"']+)["']/i`:
the greedy `[^>]*` makes the engine pick the LAST position, not past the
first `>`, at which the `href=` part succeeds. -/
def linkRegion : Str → Option Str
  | [] => none
  | c :: rest =>
    if c == '>' then none
    else
      match linkRegion rest with
      | some v => some v
      | none => hrefTry (c :: rest)

def tryLinkAt (s : Str) : Option Str :=
  if prefW lowerC (S "<link") s then linkRegion (List.drop 5 s) else none

/-- Leftmost match of the Atom link regex. -/
def scanLinkHref : Str → Option Str
  | [] => none
  | c :: rest =>
    match tryLinkAt (c :: rest) with
    | some v => some v
    | none => scanLinkHref rest

/-- The per-entry body of the `parseAtom` loop (`rss-parser.ts` lines 80-121). -/
def RSSParser.parseAtomEntry (entryXML sourceUrl : Str) (sourceTitle : Option Str) : FeedItem :=
  { title := jsOrDefault (RSSParser.extractTag entryXML (S "title")) (S "Untitled")
    link := (scanLinkHref entryXML).getD []
    description := jsOrDefault
      (jsOrOpt (jsOrOpt (jsOrOpt (RSSParser.extractCDATA entryXML (S "content"))
                                 (RSSParser.extractTag entryXML (S "content")))
                        (RSSParser.extractCDATA entryXML (S "summary")))
               (RSSParser.extractTag entryXML (S "summary"))) []
    author := match jsTruthyOpt (RSSParser.extractTag entryXML (S "author")) with
              | some a => jsTruthyOpt (RSSParser.extractTag a (S "name"))
              | none => none
    category := jsTruthyOpt (RSSParser.extractTag entryXML (S "category"))
    guid := jsTruthyOpt (RSSParser.extractTag entryXML (S "id"))
    pubDate := (jsTruthyOpt (jsOrOpt (RSSParser.extractTag entryXML (S "published"))
                                     (RSSParser.extractTag entryXML (S "updated")))).map jsDateParse
    source := match sourceTitle with
              | some t => if t.isEmpty then none else some ⟨sourceUrl, t⟩
              | none => none }

def RSSParser.parseAtom (xmlContent sourceUrl : Str) (sourceTitle : Option Str) : List FeedItem :=
  (tagSpans (S "<entry>") (S "</entry>") xmlContent).map
    (fun entryXML => RSSParser.parseAtomEntry entryXML sourceUrl sourceTitle)

/-- The Atom namespace declaration string tested by `parse`. -/
def atomNsMarker : Str := S "xmlns=" ++ [qm] ++ S "http://www.w3.org/2005/Atom" ++ [qm]

/-- The dialect test of `RSSParser.parse` (`rss-parser.ts` line 16):
`xmlContent.includes("<feed") && xmlContent.includes("xmlns=\x22http://www.w3.org/2005/Atom\x22")`
(both case-sensitive). -/
def RSSParser.isAtomFeed (xmlContent : Str) : Bool :=
  subW id (S "<feed") xmlContent && subW id atomNsMarker xmlContent

/-- `RSSParser.parse` (`rss-parser.ts` lines 12-23). -/
def RSSParser.parse (xmlContent sourceUrl : Str) (sourceTitle : Option Str) : List FeedItem :=
  if RSSParser.isAtomFeed xmlContent then RSSParser.parseAtom xmlContent sourceUrl sourceTitle
  else RSSParser.parseRSS xmlContent sourceUrl sourceTitle

/-! ### `RSSFeedBuilder` (`index.ts` lines 1242-1434) -/

/-- An optional escaped text element (`if (v) xml.push("<t>" + esc(v) + "</t>")`). -/
def optLine (openT closeT : Str) (v : Option Str) : List Str :=
  match v with
  | some s => if s.isEmpty then [] else [openT ++ RSSFeedBuilder.escapeXML s ++ closeT]
  | none => []

/-- The lines pushed by `RSSFeedBuilder.buildItem` (`index.ts` lines
1358-1404), in source order. -/
def RSSFeedBuilder.buildItemLines (item : FeedItem) : List Str :=
  [S "<item>",
   S "<title>" ++ RSSFeedBuilder.escapeXML item.title ++ S "</title>",
   S "<link>" ++ RSSFeedBuilder.escapeXML item.link ++ S "</link>",
   S "<description><![CDATA[" ++ item.description ++ S "]]></description>"]
  ++ optLine (S "<author>") (S "</author>") item.author
  ++ optLine (S "<category>") (S "</category>") item.category
  ++ optLine (S "<comments>") (S "</comments>") item.comments
  ++ (match item.enclosure with
      | some e =>
        [S "<enclosure url=" ++ [qm] ++ RSSFeedBuilder.escapeXML e.url ++ [qm]
          ++ S " length=" ++ [qm] ++ intStr e.length ++ [qm]
          ++ S " type=" ++ [qm] ++ RSSFeedBuilder.escapeXML e.type ++ [qm] ++ S " />"]
      | none => [])
  ++ [S "<guid isPermaLink=" ++ [qm]
       ++ (if jsTruthyStr item.guid then S "false" else S "true") ++ [qm] ++ ['>']
       ++ RSSFeedBuilder.escapeXML
            (match item.guid with
             | some g => if g.isEmpty then item.link else g
             | none => item.link)
       ++ S "</guid>"]
  ++ (match item.pubDate with
      | some d => [S "<pubDate>" ++ RSSFeedBuilder.formatDate d ++ S "</pubDate>"]
      | none => [])
  ++ (match item.source with
      | some src => [S "<source url=" ++ [qm] ++ RSSFeedBuilder.escapeXML src.url ++ [qm] ++ ['>']
                      ++ RSSFeedBuilder.escapeXML src.title ++ S "</source>"]
      | none => [])
  ++ [S "</item>"]

/-- `RSSFeedBuilder.buildItem`: the pushed lines joined by newlines. -/
def RSSFeedBuilder.buildItem (item : FeedItem) : Str :=
  List.intercalate ['\n'] (RSSFeedBuilder.buildItemLines item)

/-- The channel-level lines pushed by `RSSFeedBuilder.build` before the
items (`index.ts` lines 1272-1342), in source order. -/
def RSSFeedBuilder.chanLines (config : FeedConfig) : List Str :=
  [S "<?xml version=" ++ [qm] ++ S "1.0" ++ [qm] ++ S " encoding=" ++ [qm] ++ S "UTF-8" ++ [qm] ++ S "?>",
   S "<rss version=" ++ [qm] ++ S "2.0" ++ [qm] ++ S " xmlns:atom=" ++ [qm]
     ++ S "http://www.w3.org/2005/Atom" ++ [qm] ++ S " xmlns:content=" ++ [qm]
     ++ S "http://purl.org/rss/1.0/modules/content/" ++ [qm] ++ ['>'],
   S "<channel>",
   S "<title>" ++ RSSFeedBuilder.escapeXML config.title ++ S "</title>",
   S "<link>" ++ RSSFeedBuilder.escapeXML config.link ++ S "</link>",
   S "<description>" ++ RSSFeedBuilder.escapeXML config.description ++ S "</description>"]
  ++ optLine (S "<language>") (S "</language>") config.language
  ++ optLine (S "<copyright>") (S "</copyright>") config.copyright
  ++ optLine (S "<managingEditor>") (S "</managingEditor>") config.managingEditor
  ++ optLine (S "<webMaster>") (S "</webMaster>") config.webMaster
  ++ (match config.pubDate with
      | some d => [S "<pubDate>" ++ RSSFeedBuilder.formatDate d ++ S "</pubDate>"]
      | none => [])
  ++ (match config.lastBuildDate with
      | some d => [S "<lastBuildDate>" ++ RSSFeedBuilder.formatDate d ++ S "</lastBuildDate>"]
      | none => [])
  ++ optLine (S "<category>") (S "</category>") config.category
  ++ [S "<generator>"
       ++ RSSFeedBuilder.escapeXML
            (match config.generator with
             | some g => if g.isEmpty then S "RSS Feed Generator for Cloudflare Workers" else g
             | none => S "RSS Feed Generator for Cloudflare Workers")
       ++ S "</generator>"]
  ++ optLine (S "<docs>") (S "</docs>") config.docs
  ++ (match config.ttl with
      | some n => if n == 0 then [] else [S "<ttl>" ++ intStr n ++ S "</ttl>"]
      | none => [])
  ++ (match config.image with
      | some img =>
        [S "<image>",
         S "<url>" ++ RSSFeedBuilder.escapeXML img.url ++ S "</url>",
         S "<title>" ++ RSSFeedBuilder.escapeXML img.title ++ S "</title>",
         S "<link>" ++ RSSFeedBuilder.escapeXML img.link ++ S "</link>"]
        ++ (match img.width with
            | some w => if w == 0 then [] else [S "<width>" ++ intStr w ++ S "</width>"]
            | none => [])
        ++ (match img.height with
            | some h => if h == 0 then [] else [S "<height>" ++ intStr h ++ S "</height>"]
            | none => [])
        ++ optLine (S "<description>") (S "</description>") img.description
        ++ [S "</image>"]
      | none => [])
  ++ [S "<atom:link href=" ++ [qm] ++ RSSFeedBuilder.escapeXML config.link ++ S "/rss" ++ [qm]
       ++ S " rel=" ++ [qm] ++ S "self" ++ [qm] ++ S " type=" ++ [qm]
       ++ S "application/rss+xml" ++ [qm] ++ S " />"]

/-- `RSSFeedBuilder.build` for a builder holding `config` and `items`. -/
def RSSFeedBuilder.build (config : FeedConfig) (items : List FeedItem) : Str :=
  List.intercalate ['\n']
    (RSSFeedBuilder.chanLines config
      ++ items.map RSSFeedBuilder.buildItem
      ++ [S "</channel>", S "</rss>"])

/-! ### `FeedAggregator` (`feed-aggregator.ts`)

The asynchronous fan-out is embedded by passing the settled per-source
outcomes explicitly: a source whose `fetchFeed` promise rejected is `none`
(the `.catch` turns it into an empty item list), a successful source is
`some items`. -/

/-- `pubDate ? pubDate.getTime() : 0`, with `none` for a NaN result
(Invalid Date). -/
def validKey (item : FeedItem) : Option Int :=
  match item.pubDate with
  | none => some 0
  | some (some t) => some t
  | some none => none

/-- The sort comparator `(a, b) => dateB - dateA` of `aggregate`, composed
with the ECMAScript rule that a NaN comparator result is treated as 0. -/
def cmpFeed (a b : FeedItem) : Int :=
  match validKey a, validKey b with
  | some ka, some kb => kb - ka
  | _, _ => 0

/-- `a` may be placed before `b` (comparator result ≤ 0). -/
def leFeed (a b : FeedItem) : Bool := decide (cmpFeed a b ≤ 0)

/-- Stable insertion: `x` goes in front of the first element it need not
follow. -/
def insertSorted (x : FeedItem) : List FeedItem → List FeedItem
  | [] => [x]
  | y :: ys => if leFeed x y then x :: y :: ys else y :: insertSorted x ys

/-- Model of the (ES2019+, stable) `Array.prototype.sort` under the
source comparator. -/
def sortFeed (l : List FeedItem) : List FeedItem := l.foldr insertSorted []

/-- `FeedAggregator.aggregate` (`feed-aggregator.ts` lines 18-49), over
the settled fetch outcomes. -/
def FeedAggregator.aggregate (results : List (Option (List FeedItem)))
    (maxItems : Option Int) : List FeedItem :=
  let allItems := (results.map (fun r => r.getD [])).flatten
  let sorted := sortFeed allItems
  match maxItems with
  | some k => if 0 < k then sorted.take k.toNat else sorted
  | none => sorted

/-- A simulated HTTP outcome for one source: `none` is a network error,
`some (status, body)` a settled response. -/
abbrev FetchSim := Option (Int × Str)

/-- `FeedAggregator.fetchFeed` (`feed-aggregator.ts` lines 54-72) over a
simulated response: a network error or a non-2xx status (`response.ok`
false) makes the promise reject (`none`); otherwise the body is parsed. -/
def FeedAggregator.fetchFeedSim (source : SourceFeed) (response : FetchSim) :
    Option (List FeedItem) :=
  match response with
  | none => none
  | some (status, body) =>
    if 200 ≤ status ∧ status ≤ 299 then
      some (RSSParser.parse body source.url (some source.title))
    else none

/-- `aggregate` applied to sources with simulated fetch outcomes. -/
def FeedAggregator.aggregateSim (sources : List (SourceFeed × FetchSim))
    (maxItems : Option Int) : List FeedItem :=
  FeedAggregator.aggregate (sources.map (fun p => FeedAggregator.fetchFeedSim p.1 p.2)) maxItems

/-! ### Helper definitions used by the verification lemmas -/

/-- `hasMismatch f p t`: comparing `p` and `t` position by position (through
`f`), some position inside both disagrees.  This guarantees that `p` cannot
be a prefix of `t ++ b` for any `b`. -/
def hasMismatch (f : Char → Char) : Str → Str → Bool
  | [], _ => false
  | _ :: _, [] => false
  | p :: ps, c :: cs => (f p != f c) || hasMismatch f ps cs

/-- `allMismatch f p a`: at every start position inside `a`, matching `p`
fails already within `a` (independently of what follows `a`). -/
def allMismatch (f : Char → Char) (p : Str) : Str → Bool
  | [] => true
  | c :: rest => hasMismatch f p (c :: rest) && allMismatch f p rest

/-- `tailsMismatch f p lit`: every proper tail of `p` mismatches `lit`
within `lit` — no occurrence of `p` can straddle a boundary into `lit`. -/
def tailsMismatch (f : Char → Char) (p lit : Str) : Bool :=
  (List.range p.length).all (fun m => m == 0 || hasMismatch f (List.drop m p) lit)

/-- The per-character expansion performed by `escapeXML`. -/
def escChar (c : Char) : Str :=
  if c = '&' then S "&amp;" else if c = '<' then S "&lt;" else if c = '>' then S "&gt;"
  else if c = qm then S "&quot;" else if c = apos then S "&apos;" else [c]

/-- State of the text after the `&amp;` pass of `decodeHTML`. -/
def escCharA (c : Char) : Str :=
  if c = '<' then S "&lt;" else if c = '>' then S "&gt;"
  else if c = qm then S "&quot;" else if c = apos then S "&apos;" else [c]

/-- After the `&lt;` pass. -/
def escCharB (c : Char) : Str :=
  if c = '>' then S "&gt;" else if c = qm then S "&quot;" else if c = apos then S "&apos;" else [c]

/-- After the `&gt;` pass. -/
def escCharC (c : Char) : Str :=
  if c = qm then S "&quot;" else if c = apos then S "&apos;" else [c]

/-- After the `&quot;` pass. -/
def escCharD (c : Char) : Str :=
  if c = apos then S "&apos;" else [c]

/-- The item has no Invalid-Date timestamp (its comparator key is a real
number). -/
def validItem (it : FeedItem) : Prop := validKey it ≠ none

instance (it : FeedItem) : Decidable (validItem it) :=
  inferInstanceAs (Decidable (validKey it ≠ none))

/-- The effective sort key: epoch milliseconds, with 0 for a missing date. -/
def effKey (it : FeedItem) : Int := (validKey it).getD 0

/-- The ordering claimed for adjacent output items by the specification:
`pubDate` non-increasing, and an item lacking a date never precedes a dated
one. -/
def specPairOK (a b : FeedItem) : Bool :=
  match a.pubDate, b.pubDate with
  | none, some _ => false
  | some (some ta), some (some tb) => decide (tb ≤ ta)
  | _, _ => true

/-- The amended ordering actually enforced by the comparator on items with
no Invalid Date: the effective key (absent date ↦ epoch 0) is
non-increasing. -/
def effPairOK (a b : FeedItem) : Bool := decide (effKey b ≤ effKey a)

/-- Freedom from the four entity spellings whose decode-after-escape
round-trip is broken by the `&amp;`-first decoding order. -/
def entFree (s : Str) : Prop :=
  subW id (S "&lt;") s = false ∧ subW id (S "&gt;") s = false ∧
  subW id (S "&quot;") s = false ∧ subW id (S "&apos;") s = false

/-- Conditions under which build-then-parse provably round-trips an item
(C5, amended): trimmed entity-spelling-free title and link, nonempty
trimmed description free of the only three markers that can derail the
span/CDATA extraction, and no optional fields. -/
def GoodItem (it : FeedItem) : Prop :=
  it.title ≠ [] ∧ trimL it.title = it.title ∧ entFree it.title ∧
  trimL it.link = it.link ∧ entFree it.link ∧
  it.description ≠ [] ∧ trimL it.description = it.description ∧
  subW lowerC (S "</item>") it.description = false ∧
  subW lowerC (cdataCloseOf (S "description")) it.description = false ∧
  subW id (S "<feed") it.description = false ∧
  it.author = none ∧ it.category = none ∧ it.comments = none ∧ it.enclosure = none ∧
  it.guid = none ∧ it.pubDate = none ∧ it.source = none

/-- A minimal concrete channel configuration for the round-trip theorems. -/
def cfg0 : FeedConfig :=
  { title := S "Feed", description := S "Aggregated", link := S "http://example.org" }

/-- C5 counterexample item: its title is the literal four characters
`&lt;`. -/
def itAmpLt : FeedItem :=
  { title := S "&lt;", link := S "http://a", description := S "<p>Hi</p>" }

/-- C5 witness item: HTML-bearing description. -/
def itHtml : FeedItem :=
  { title := S "Hello World", link := S "http://a/b", description := S "<p>Hi &amp; bye</p>" }

/-- C1 counterexample: an item dated before the epoch... -/
def itPreEpoch : FeedItem :=
  { title := S "old", link := [], description := [], pubDate := some (some (-1000)) }

/-- ...and an item with no date at all. -/
def itNoDate : FeedItem :=
  { title := S "undated", link := [], description := [] }

/-- An item whose pubDate is the Invalid Date (as produced by unparseable
date text). -/
def itInvalidDate : FeedItem :=
  { title := S "bad", link := [], description := [], pubDate := some none }

/-- An item validly dated shortly after the epoch. -/
def itValid5 : FeedItem :=
  { title := S "v", link := [], description := [], pubDate := some (some 5000) }

/-- A concrete RSS document whose single item carries unparseable date
text. -/
def xmlBadDate : Str :=
  S "<rss><channel><item><title>T</title><link>http://x</link><description>D</description><pubDate>not a real date</pubDate></item></channel></rss>"

/-- A concrete RSS body with one item (for the fault-isolation witness). -/
def xmlOneItem : Str :=
  S "<rss><channel><item><title>A1</title><link>http://a/1</link><description>da</description></item></channel></rss>"

/-- A concrete RSS body with two items. -/
def xmlTwoItems : Str :=
  S "<rss><channel><item><title>B1</title><link>http://b/1</link><description>db</description></item><item><title>B2</title><link>http://b/2</link><description>db2</description></item></channel></rss>"

/-- A concrete Atom document that also contains the stray string `rss`
in its body text (C7). -/
def atomWithStrayRss : Str :=
  S "<feed " ++ atomNsMarker ++
  S "><entry><title>an rss-flavoured title</title><link href=" ++ [qm] ++ S "http://e/1" ++ [qm]
  ++ S " /><summary>all about rss</summary></entry></feed>"

/-- An item carrying an explicit guid (C6 witness). -/
def itGuid : FeedItem :=
  { title := S "G", link := S "http://g", description := S "d", guid := some (S "tag:g-1") }

/-- Three simulated sources for the fault-isolation witness: the middle
one answers HTTP 500. -/
def srcs0 : List (SourceFeed × FetchSim) :=
  [(⟨S "http://a", S "A"⟩, some (200, xmlOneItem)),
   (⟨S "http://b", S "B"⟩, some (500, xmlOneItem)),
   (⟨S "http://c", S "C"⟩, some (200, xmlTwoItems))]

/-- Concrete glue text of a built item: up to the escaped title. -/
def iA1 : Str := S "\n<title>"

/-- Between escaped title and escaped link. -/
def iA2 : Str := S "</title>\n<link>"

/-- Between escaped link and the raw description. -/
def iA3 : Str := S "</link>\n<description><![CDATA["

/-- Between the raw description and the escaped guid payload (the guid of a
`GoodItem` falls back to its link, flagged as a permalink). -/
def iA4 : Str := S "]]></description>\n<guid isPermaLink=" ++ [qm] ++ S "true" ++ [qm] ++ ['>']

/-- After the escaped guid payload. -/
def iA5 : Str := S "</guid>\n"

/-- The text between `<item>` and `</item>` in the built document, for an
item with no optional fields. -/
def itemBody (it : FeedItem) : Str :=
  iA1 ++ (RSSFeedBuilder.escapeXML it.title ++ (iA2 ++ (RSSFeedBuilder.escapeXML it.link ++
    (iA3 ++ (it.description ++ (iA4 ++ (RSSFeedBuilder.escapeXML it.link ++ iA5)))))))

/-- The channel prefix of the built document for the fixed `cfg0`,
followed by the newline that separates it from the first item. -/
def chanStr0 : Str := List.intercalate ['\n'] (RSSFeedBuilder.chanLines cfg0) ++ ['\n']

/-- The remainder of the built document after the channel prefix: the
rendered items and the closing tags. -/
def renderTail : List FeedItem → Str
  | [] => S "</channel>\n</rss>"
  | it :: rest => S "<item>" ++ (itemBody it ++ (S "</item>" ++ ('\n' :: renderTail rest)))

/-- The observable projection of the round-trip claim: title, link and
description. -/
def tldOf (it : FeedItem) : Str × Str × Str := (it.title, it.link, it.description)

/-! # Lemmas

### Basic facts about the generic matching primitives -/

theorem prefW_nil (f : Char → Char) (s : Str) : prefW f [] s = true := by
  cases s <;> rfl

theorem prefW_self_append (f : Char → Char) (p b : Str) : prefW f p (p ++ b) = true := by
  induction p with
  | nil => exact prefW_nil f b
  | cons c cs ih => simp [prefW, ih]

theorem prefW_length {f : Char → Char} {p s : Str} (h : prefW f p s = true) :
    p.length ≤ s.length := by
  induction p generalizing s with
  | nil => simp
  | cons c cs ih =>
    cases s with
    | nil => simp [prefW] at h
    | cons d ds =>
      simp only [prefW, Bool.and_eq_true] at h
      have := ih h.2
      simp only [List.length_cons]
      omega

theorem prefW_append_of_le {f : Char → Char} {p a : Str} (b : Str) (h : p.length ≤ a.length) :
    prefW f p (a ++ b) = prefW f p a := by
  induction p generalizing a with
  | nil => simp [prefW_nil]
  | cons c cs ih =>
    cases a with
    | nil => simp at h
    | cons d ds =>
      have h' : cs.length ≤ ds.length := by simpa using h
      simp only [List.cons_append, prefW, List.append_eq]
      rw [ih h']

theorem prefW_drop_of_append {f : Char → Char} {p t b : Str} (h : prefW f p (t ++ b) = true)
    (hl : t.length ≤ p.length) : prefW f (List.drop t.length p) b = true := by
  induction t generalizing p with
  | nil => simpa using h
  | cons c cs ih =>
    cases p with
    | nil => simp at hl
    | cons d ds =>
      simp only [List.cons_append, prefW, Bool.and_eq_true] at h
      simpa using ih h.2 (by simpa using hl)

theorem hasMismatch_spec {f : Char → Char} {p t : Str} (h : hasMismatch f p t = true) (b : Str) :
    prefW f p (t ++ b) = false := by
  induction p generalizing t with
  | nil => simp [hasMismatch] at h
  | cons c cs ih =>
    cases t with
    | nil => simp [hasMismatch] at h
    | cons d ds =>
      simp only [hasMismatch, Bool.or_eq_true, bne_iff_ne, ne_eq] at h
      simp only [List.cons_append, prefW, Bool.and_eq_false_iff]
      rcases h with h | h
      · exact Or.inl (by simpa using h)
      · exact Or.inr (ih h)

theorem allMismatch_spec {f : Char → Char} {p a : Str} (h : allMismatch f p a = true) :
    ∀ k, k < a.length → ∀ b, prefW f p (List.drop k a ++ b) = false := by
  induction a with
  | nil => intro k hk; simp at hk
  | cons c rest ih =>
    simp only [allMismatch, Bool.and_eq_true] at h
    intro k hk b
    cases k with
    | zero => simpa using hasMismatch_spec h.1 b
    | succ k' => exact ih h.2 k' (by simpa using hk) b

theorem subW_eq_true_iff {f : Char → Char} {p s : Str} :
    subW f p s = true ↔ ∃ k, prefW f p (List.drop k s) = true := by
  induction s with
  | nil =>
    constructor
    · intro h; exact ⟨0, by simpa [subW] using h⟩
    · rintro ⟨k, hk⟩
      simp only [List.drop_nil] at hk
      simpa [subW] using hk
  | cons c rest ih =>
    simp only [subW, Bool.or_eq_true, ih]
    constructor
    · rintro (h | ⟨k, hk⟩)
      · exact ⟨0, h⟩
      · exact ⟨k + 1, by simpa using hk⟩
    · rintro ⟨k, hk⟩
      cases k with
      | zero => exact Or.inl (by simpa using hk)
      | succ k' => exact Or.inr ⟨k', by simpa using hk⟩

theorem subW_false_spec {f : Char → Char} {p s : Str} (h : subW f p s = false) :
    ∀ k, prefW f p (List.drop k s) = false := by
  intro k
  by_contra hc
  rw [Bool.not_eq_false] at hc
  have : subW f p s = true := subW_eq_true_iff.mpr ⟨k, hc⟩
  rw [h] at this
  exact Bool.false_ne_true this

theorem splitFirstW_nil {f : Char → Char} {p : Str} (hp : p ≠ []) :
    splitFirstW f p [] = none := by
  cases p with
  | nil => exact absurd rfl hp
  | cons c cs => simp [splitFirstW, prefW]

theorem splitFirstW_none {f : Char → Char} {p s : Str}
    (h : ∀ k, prefW f p (List.drop k s) = false) : splitFirstW f p s = none := by
  induction s with
  | nil =>
    have h0 := h 0
    simp only [List.drop_nil] at h0
    simp [splitFirstW, h0]
  | cons c rest ih =>
    have h0 := h 0
    simp only [List.drop_zero] at h0
    have hrest : splitFirstW f p rest = none := ih (fun k => by simpa using h (k + 1))
    simp [splitFirstW, h0, hrest]

theorem splitFirstW_append {f : Char → Char} (p pre post : Str)
    (h : ∀ k, k < pre.length → prefW f p (List.drop k (pre ++ p ++ post)) = false) :
    splitFirstW f p (pre ++ p ++ post) = some (pre, post) := by
  induction pre with
  | nil =>
    simp only [List.nil_append]
    have hpre : prefW f p (p ++ post) = true := prefW_self_append f p post
    cases hs : p ++ post with
    | nil =>
      have hp : p = [] := by
        cases p with
        | nil => rfl
        | cons a as => simp at hs
      subst hp
      simp only [List.nil_append] at hs
      subst hs
      simp [splitFirstW, prefW]
    | cons c rest =>
      rw [hs] at hpre
      have hstep : splitFirstW f p (c :: rest) = some ([], List.drop p.length (c :: rest)) := by
        simp [splitFirstW, hpre]
      rw [hstep, ← hs, List.drop_left]
  | cons c pre' ih =>
    have h0 := h 0 (by simp)
    simp only [List.drop_zero] at h0
    have hrec : splitFirstW f p (pre' ++ p ++ post) = some (pre', post) := by
      apply ih
      intro k hk
      have := h (k + 1) (by simpa using hk)
      simpa using this
    simp only [List.cons_append, List.append_assoc] at h0 ⊢
    simp only [splitFirstW, h0, if_false, Bool.false_eq_true]
    simp only [List.append_assoc] at hrec
    rw [hrec]

theorem splitFirstW_length {f : Char → Char} {p s b a : Str}
    (h : splitFirstW f p s = some (b, a)) : s.length = b.length + p.length + a.length := by
  induction s generalizing b with
  | nil =>
    simp only [splitFirstW] at h
    split at h
    · rename_i hpre
      have hp := prefW_length hpre
      simp only [List.length_nil, Nat.le_zero, List.length_eq_zero] at hp
      subst hp
      simp only [Option.some.injEq, Prod.mk.injEq] at h
      obtain ⟨h1, h2⟩ := h
      subst h1; subst h2
      simp
    · exact absurd h (by simp)
  | cons c rest ih =>
    simp only [splitFirstW] at h
    split at h
    · rename_i hpre
      have hp := prefW_length hpre
      simp only [Option.some.injEq, Prod.mk.injEq] at h
      obtain ⟨h1, h2⟩ := h
      subst h1; subst h2
      simp only [List.length_nil, List.length_drop, List.length_cons]
      simp only [List.length_cons] at hp
      omega
    · cases hm : splitFirstW f p rest with
      | none => rw [hm] at h; exact absurd h (by simp)
      | some pr =>
        obtain ⟨b', a'⟩ := pr
        rw [hm] at h
        simp only [Option.some.injEq, Prod.mk.injEq] at h
        obtain ⟨h1, h2⟩ := h
        subst h1; subst h2
        have := ih hm
        simp only [List.length_cons]
        omega

/-! ### Localising occurrences across concatenations -/

theorem noOcc_append {f : Char → Char} {p a b : Str}
    (h1 : ∀ k, k < a.length → prefW f p (List.drop k a ++ b) = false)
    (h2 : ∀ k, prefW f p (List.drop k b) = false) :
    ∀ k, prefW f p (List.drop k (a ++ b)) = false := by
  intro k
  by_cases hk : k < a.length
  · rw [List.drop_append_of_le_length (Nat.le_of_lt hk)]
    exact h1 k hk
  · have hge : a.length ≤ k := Nat.le_of_not_lt hk
    have : List.drop k (a ++ b) = List.drop (k - a.length) b := by
      rw [List.drop_append_eq_append_drop]
      rw [List.drop_of_length_le hge, List.nil_append]
    rw [this]
    exact h2 (k - a.length)

theorem noStart_allMismatch {f : Char → Char} {p a : Str} (h : allMismatch f p a = true)
    (b : Str) : ∀ k, k < a.length → prefW f p (List.drop k a ++ b) = false :=
  fun k hk => allMismatch_spec h k hk b

/-- Starting inside a chunk whose characters never normalise to the
pattern head, a match is impossible. -/
theorem noStart_payload {f : Char → Char} {p0 : Char} {pr a : Str}
    (h : ∀ c ∈ a, f c ≠ f p0) (b : Str) :
    ∀ k, k < a.length → prefW f (p0 :: pr) (List.drop k a ++ b) = false := by
  intro k hk
  have hne : List.drop k a ≠ [] := by
    intro hnil
    have := List.drop_eq_nil_iff.mp hnil
    omega
  cases hd : List.drop k a with
  | nil => exact absurd hd hne
  | cons x xs =>
    have hx : x ∈ a := by
      have : x ∈ List.drop k a := by rw [hd]; exact List.mem_cons_self x xs
      exact List.mem_of_mem_drop this
    simp only [List.cons_append, prefW, Bool.and_eq_false_iff]
    left
    simp only [beq_eq_false_iff_ne, ne_eq]
    intro hc
    exact h x hx hc.symm

/-- Starting inside a chunk that contains no full occurrence, a match can
only straddle into the following text, which `tailsMismatch` rules out. -/
theorem noStart_sub {f : Char → Char} {p a lit : Str} (hsub : subW f p a = false)
    (htails : tailsMismatch f p lit = true) (b : Str) :
    ∀ k, k < a.length → prefW f p (List.drop k a ++ (lit ++ b)) = false := by
  intro k hk
  by_cases hlen : p.length ≤ (List.drop k a).length
  · rw [prefW_append_of_le _ hlen]
    exact subW_false_spec hsub k
  · by_contra hc
    rw [Bool.not_eq_false] at hc
    have hdl : (List.drop k a).length ≤ p.length := Nat.le_of_not_lt (by omega)
    have h2 := prefW_drop_of_append hc hdl
    have hmpos : 0 < (List.drop k a).length := by
      simp only [List.length_drop]
      omega
    have hmlt : (List.drop k a).length < p.length := Nat.lt_of_not_le hlen
    simp only [tailsMismatch, List.all_eq_true, List.mem_range] at htails
    have hmm := htails (List.drop k a).length hmlt
    rcases (Bool.or_eq_true _ _).mp hmm with h0 | hmis
    · simp only [beq_iff_eq] at h0
      omega
    · have hfalse := hasMismatch_spec hmis b
      rw [h2] at hfalse
      simp at hfalse

/-! ### Fuel congruence and unfolding steps -/

theorem replaceAllF_congr {pat rep : Str} :
    ∀ fu1 fu2 s, s.length ≤ fu1 → s.length ≤ fu2 →
      replaceAllF pat rep fu1 s = replaceAllF pat rep fu2 s := by
  intro fu1
  induction fu1 with
  | zero =>
    intro fu2 s h1 _
    have hs : s = [] := by
      cases s with
      | nil => rfl
      | cons c r => simp at h1
    subst hs
    cases fu2 <;> rfl
  | succ fu ih =>
    intro fu2 s h1 h2
    cases s with
    | nil => cases fu2 <;> rfl
    | cons c rest =>
      cases fu2 with
      | zero => simp at h2
      | succ fu2' =>
        simp only [replaceAllF]
        by_cases hc : (!pat.isEmpty && prefW id pat (c :: rest)) = true
        · rw [hc]
          simp only [if_true]
          have hlen : (List.drop (pat.length - 1) rest).length ≤ fu := by
            simp only [List.length_drop]
            simp only [List.length_cons] at h1
            omega
          have hlen2 : (List.drop (pat.length - 1) rest).length ≤ fu2' := by
            simp only [List.length_drop]
            simp only [List.length_cons] at h2
            omega
          rw [ih fu2' _ hlen hlen2]
        · rw [Bool.not_eq_true] at hc
          rw [hc]
          simp only [Bool.false_eq_true, if_false]
          have hlen : rest.length ≤ fu := by
            simp only [List.length_cons] at h1
            omega
          have hlen2 : rest.length ≤ fu2' := by
            simp only [List.length_cons] at h2
            omega
          rw [ih fu2' rest hlen hlen2]

theorem replaceAll_cons_nomatch {pat rep : Str} {c : Char} {rest : Str}
    (h : prefW id pat (c :: rest) = false) :
    replaceAll pat rep (c :: rest) = c :: replaceAll pat rep rest := by
  show replaceAllF pat rep (c :: rest).length (c :: rest) = _
  simp only [List.length_cons]
  simp only [replaceAllF, h, Bool.and_false, Bool.false_eq_true, if_false]
  rfl

theorem replaceAll_cons_match {pat rep rest : Str} (hp : pat ≠ []) :
    replaceAll pat rep (pat ++ rest) = rep ++ replaceAll pat rep rest := by
  cases hpat : pat with
  | nil => exact absurd hpat hp
  | cons p ps =>
    show replaceAllF _ _ ((p :: ps) ++ rest).length ((p :: ps) ++ rest) = _
    have hpre : prefW id (p :: ps) ((p :: ps) ++ rest) = true := prefW_self_append id _ rest
    simp only [List.cons_append, List.length_cons, List.length_append]
    have hpre' : prefW id (p :: ps) (p :: (ps ++ rest)) = true := by
      simpa using hpre
    simp only [replaceAllF, hpre', List.isEmpty_cons, Bool.not_false, Bool.true_and, if_true]
    have hdrop : List.drop ((p :: ps).length - 1) (ps ++ rest) = rest := by
      simp only [List.length_cons, Nat.add_sub_cancel]
      exact List.drop_left ps rest
    rw [hdrop]
    congr 1
    apply replaceAllF_congr
    · simp [List.length_append]
    · exact Nat.le_refl _

theorem tagSpansF_congr {openT closeT : Str} (ho : openT ≠ []) (hc : closeT ≠ []) :
    ∀ fu1 fu2 s, s.length ≤ fu1 → s.length ≤ fu2 →
      tagSpansF openT closeT fu1 s = tagSpansF openT closeT fu2 s := by
  intro fu1
  induction fu1 with
  | zero =>
    intro fu2 s h1 _
    have hs : s = [] := by
      cases s with
      | nil => rfl
      | cons c r => simp at h1
    subst hs
    cases fu2 with
    | zero => rfl
    | succ fu2' =>
      simp only [tagSpansF, splitFirstW_nil ho]
  | succ fu ih =>
    intro fu2 s h1 h2
    cases fu2 with
    | zero =>
      have hs : s = [] := by
        cases s with
        | nil => rfl
        | cons c r => simp at h2
      subst hs
      simp only [tagSpansF, splitFirstW_nil ho]
    | succ fu2' =>
      cases hsp : splitFirstW lowerC openT s with
      | none => simp only [tagSpansF, hsp]
      | some pr =>
        obtain ⟨b1, r1⟩ := pr
        cases hsp2 : splitFirstW lowerC closeT r1 with
        | none => simp only [tagSpansF, hsp, hsp2]
        | some pr2 =>
          obtain ⟨span, r2⟩ := pr2
          simp only [tagSpansF, hsp, hsp2]
          have l1 := splitFirstW_length hsp
          have l2 := splitFirstW_length hsp2
          have hop : 0 < openT.length := List.length_pos.mpr ho
          have hcl : 0 < closeT.length := List.length_pos.mpr hc
          have hr2 : r2.length ≤ fu := by omega
          have hr2' : r2.length ≤ fu2' := by omega
          rw [ih fu2' r2 hr2 hr2']

/-- Unfold `tagSpans` once on a string that decomposes as
`pre ++ open ++ span ++ close ++ rest` with no earlier occurrences. -/
theorem tagSpans_step {openT closeT pre span rest : Str}
    (ho : openT ≠ []) (hc : closeT ≠ [])
    (hpre : ∀ k, k < pre.length →
      prefW lowerC openT (List.drop k (pre ++ openT ++ (span ++ closeT ++ rest))) = false)
    (hspan : ∀ k, k < span.length →
      prefW lowerC closeT (List.drop k (span ++ closeT ++ rest)) = false) :
    tagSpans openT closeT (pre ++ openT ++ (span ++ closeT ++ rest)) =
      span :: tagSpans openT closeT rest := by
  have h1 : splitFirstW lowerC openT (pre ++ openT ++ (span ++ closeT ++ rest)) =
      some (pre, span ++ closeT ++ rest) := splitFirstW_append openT pre _ hpre
  have h2 : splitFirstW lowerC closeT (span ++ closeT ++ rest) = some (span, rest) :=
    splitFirstW_append closeT span rest hspan
  show tagSpansF openT closeT (pre ++ openT ++ (span ++ closeT ++ rest)).length _ = _
  have hlen : 0 < (pre ++ openT ++ (span ++ closeT ++ rest)).length := by
    have : 0 < openT.length := List.length_pos.mpr ho
    simp only [List.length_append]
    omega
  cases hfu : (pre ++ openT ++ (span ++ closeT ++ rest)).length with
  | zero => omega
  | succ n =>
    simp only [tagSpansF, h1, h2]
    congr 1
    have hr : rest.length ≤ n := by
      have e1 := splitFirstW_length h1
      have e2 := splitFirstW_length h2
      have : 0 < openT.length := List.length_pos.mpr ho
      have : 0 < closeT.length := List.length_pos.mpr hc
      omega
    exact tagSpansF_congr ho hc n rest.length rest hr (Nat.le_refl _)

/-- `tagSpans` finds nothing when the open marker never occurs. -/
theorem tagSpans_nil {openT closeT s : Str} (h : subW lowerC openT s = false) :
    tagSpans openT closeT s = [] := by
  have hsp : splitFirstW lowerC openT s = none := splitFirstW_none (subW_false_spec h)
  show tagSpansF openT closeT s.length s = []
  cases hl : s.length with
  | zero => rfl
  | succ n => simp only [tagSpansF, hsp]

/-! ### `escapeXML` as a per-character expansion, and the behaviour of
`decodeHTML` after it -/

theorem replaceAll_skip_chunk {pat rep chunk rest : Str}
    (h : ∀ k, k < chunk.length → prefW id pat (List.drop k chunk ++ rest) = false) :
    replaceAll pat rep (chunk ++ rest) = chunk ++ replaceAll pat rep rest := by
  induction chunk with
  | nil => simp
  | cons c ch ih =>
    have h0 := h 0 (by simp)
    simp only [List.drop_zero, List.cons_append] at h0
    rw [List.cons_append, replaceAll_cons_nomatch h0]
    rw [ih (fun k hk => by simpa using h (k + 1) (by simpa using hk))]
    rfl

theorem prefW_id_head_false {p0 : Char} {pr : Str} {c : Char} {s : Str} (h : c ≠ p0) :
    prefW id (p0 :: pr) (c :: s) = false := by
  simp only [prefW, id_eq, Bool.and_eq_false_iff]
  left
  simp only [beq_eq_false_iff_ne, ne_eq]
  exact fun hq => h hq.symm

theorem subW_cons_false {f : Char → Char} {p : Str} {c : Char} {s : Str}
    (h : subW f p (c :: s) = false) : prefW f p (c :: s) = false ∧ subW f p s = false := by
  simpa [subW, Bool.or_eq_false_iff] using h

theorem replaceAll_single (a : Char) (rep : Str) (s : Str) :
    replaceAll [a] rep s = s.flatMap (fun c => if c = a then rep else [c]) := by
  induction s with
  | nil => rfl
  | cons c rest ih =>
    by_cases hca : c = a
    · subst hca
      have hm : replaceAll [c] rep (c :: rest) = rep ++ replaceAll [c] rep rest := by
        have := @replaceAll_cons_match [c] rep rest (by simp)
        simpa using this
      rw [hm, ih]
      simp
    · rw [replaceAll_cons_nomatch (prefW_id_head_false hca), ih]
      simp [hca]

theorem prefW_flatMap_lift {g : Char → Str} {p : Str}
    (hg : ∀ x, g x = [x] ∨ ∃ t, g x = '&' :: t)
    (hp : ∀ ch ∈ p, ch ≠ '&') :
    ∀ {s : Str}, prefW id p (s.flatMap g) = true → prefW id p s = true := by
  induction p with
  | nil => intro s _; exact prefW_nil id s
  | cons a p' ih =>
    intro s h
    cases s with
    | nil => simp [prefW] at h
    | cons x s' =>
      simp only [List.flatMap_cons] at h
      rcases hg x with hx | ⟨t, hx⟩
      · rw [hx, List.singleton_append] at h
        simp only [prefW, id_eq, Bool.and_eq_true, beq_iff_eq] at h
        simp only [prefW, id_eq, Bool.and_eq_true, beq_iff_eq]
        exact ⟨h.1, ih (fun ch hc => hp ch (List.mem_cons_of_mem a hc)) h.2⟩
      · rw [hx, List.cons_append] at h
        simp only [prefW, id_eq, Bool.and_eq_true, beq_iff_eq] at h
        exact absurd h.1 (hp a (List.mem_cons_self a p'))

theorem escCharA_cases (x : Char) : escCharA x = [x] ∨ ∃ t, escCharA x = '&' :: t := by
  unfold escCharA
  by_cases h1 : x = '<'
  · right; exact ⟨S "lt;", by rw [if_pos h1]; decide⟩
  · rw [if_neg h1]
    by_cases h2 : x = '>'
    · right; exact ⟨S "gt;", by rw [if_pos h2]; decide⟩
    · rw [if_neg h2]
      by_cases h3 : x = qm
      · right; exact ⟨S "quot;", by rw [if_pos h3]; decide⟩
      · rw [if_neg h3]
        by_cases h4 : x = apos
        · right; exact ⟨S "apos;", by rw [if_pos h4]; decide⟩
        · rw [if_neg h4]; left; rfl

theorem escCharB_cases (x : Char) : escCharB x = [x] ∨ ∃ t, escCharB x = '&' :: t := by
  unfold escCharB
  by_cases h2 : x = '>'
  · right; exact ⟨S "gt;", by rw [if_pos h2]; decide⟩
  · rw [if_neg h2]
    by_cases h3 : x = qm
    · right; exact ⟨S "quot;", by rw [if_pos h3]; decide⟩
    · rw [if_neg h3]
      by_cases h4 : x = apos
      · right; exact ⟨S "apos;", by rw [if_pos h4]; decide⟩
      · rw [if_neg h4]; left; rfl

theorem escCharC_cases (x : Char) : escCharC x = [x] ∨ ∃ t, escCharC x = '&' :: t := by
  unfold escCharC
  by_cases h3 : x = qm
  · right; exact ⟨S "quot;", by rw [if_pos h3]; decide⟩
  · rw [if_neg h3]
    by_cases h4 : x = apos
    · right; exact ⟨S "apos;", by rw [if_pos h4]; decide⟩
    · rw [if_neg h4]; left; rfl

theorem escCharD_cases (x : Char) : escCharD x = [x] ∨ ∃ t, escCharD x = '&' :: t := by
  unfold escCharD
  by_cases h4 : x = apos
  · right; exact ⟨S "apos;", by rw [if_pos h4]; decide⟩
  · rw [if_neg h4]; left; rfl

theorem escapeXML_flatMap (s : Str) : RSSFeedBuilder.escapeXML s = s.flatMap escChar := by
  unfold RSSFeedBuilder.escapeXML
  rw [replaceAll_single '&', replaceAll_single '<', replaceAll_single '>',
      replaceAll_single qm, replaceAll_single apos]
  rw [List.flatMap_assoc, List.flatMap_assoc, List.flatMap_assoc, List.flatMap_assoc]
  induction s with
  | nil => rfl
  | cons c rest ih =>
    simp only [List.flatMap_cons, ih]
    congr 1
    by_cases h1 : c = '&'
    · subst h1; rfl
    by_cases h2 : c = '<'
    · subst h2; rfl
    by_cases h3 : c = '>'
    · subst h3; rfl
    by_cases h4 : c = qm
    · subst h4; rfl
    by_cases h5 : c = apos
    · subst h5; rfl
    simp only [escChar, if_neg h1, if_neg h2, if_neg h3, if_neg h4, if_neg h5,
      List.flatMap_cons, List.flatMap_nil, List.append_nil]

theorem decode_amp (s : Str) :
    replaceAll (S "&amp;") ['&'] (s.flatMap escChar) = s.flatMap escCharA := by
  induction s with
  | nil => rfl
  | cons c rest ih =>
    simp only [List.flatMap_cons]
    by_cases h1 : c = '&'
    · subst h1
      rw [show escChar '&' = S "&amp;" from by decide]
      rw [replaceAll_cons_match (by decide), ih]
      rfl
    by_cases h2 : c = '<'
    · subst h2
      rw [show escChar '<' = S "&lt;" from by decide]
      have ham : allMismatch id (S "&amp;") (S "&lt;") = true := by decide
      rw [replaceAll_skip_chunk (fun k hk => allMismatch_spec ham k hk _), ih]
      rfl
    by_cases h3 : c = '>'
    · subst h3
      rw [show escChar '>' = S "&gt;" from by decide]
      have ham : allMismatch id (S "&amp;") (S "&gt;") = true := by decide
      rw [replaceAll_skip_chunk (fun k hk => allMismatch_spec ham k hk _), ih]
      rfl
    by_cases h4 : c = qm
    · subst h4
      rw [show escChar qm = S "&quot;" from by decide]
      have ham : allMismatch id (S "&amp;") (S "&quot;") = true := by decide
      rw [replaceAll_skip_chunk (fun k hk => allMismatch_spec ham k hk _), ih]
      rfl
    by_cases h5 : c = apos
    · subst h5
      rw [show escChar apos = S "&apos;" from by decide]
      have ham : allMismatch id (S "&amp;") (S "&apos;") = true := by decide
      rw [replaceAll_skip_chunk (fun k hk => allMismatch_spec ham k hk _), ih]
      rfl
    · rw [show escChar c = [c] from by simp [escChar, h1, h2, h3, h4, h5]]
      have hno : prefW id (S "&amp;") (c :: rest.flatMap escChar) = false := by
        rw [show (S "&amp;") = '&' :: S "amp;" from by decide]
        exact prefW_id_head_false h1
      rw [List.singleton_append, replaceAll_cons_nomatch hno, ih]
      rw [show escCharA c = [c] from by simp [escCharA, h2, h3, h4, h5]]
      rfl

theorem decode_lt : ∀ s : Str, subW id (S "&lt;") s = false →
    replaceAll (S "&lt;") ['<'] (s.flatMap escCharA) = s.flatMap escCharB := by
  intro s
  induction s with
  | nil => intro _; rfl
  | cons c rest ih =>
    intro hsub
    simp only [List.flatMap_cons]
    by_cases h1 : c = '&'
    · subst h1
      rw [show escCharA '&' = ['&'] from by decide]
      have hno : prefW id (S "&lt;") ('&' :: rest.flatMap escCharA) = false := by
        by_contra hcc
        rw [Bool.not_eq_false] at hcc
        rw [show (S "&lt;") = '&' :: S "lt;" from by decide] at hcc
        have hcc2 : prefW id (S "lt;") (rest.flatMap escCharA) = true := by
          simpa [prefW] using hcc
        have hlift := prefW_flatMap_lift escCharA_cases (by decide) hcc2
        have hpos : prefW id (S "&lt;") ('&' :: rest) = true := by
          rw [show (S "&lt;") = '&' :: S "lt;" from by decide]
          simp [prefW, hlift]
        have hcon : subW id (S "&lt;") ('&' :: rest) = true :=
          subW_eq_true_iff.mpr ⟨0, by simpa using hpos⟩
        rw [hsub] at hcon
        simp at hcon
      rw [List.singleton_append, replaceAll_cons_nomatch hno, ih (subW_cons_false hsub).2]
      rfl
    by_cases h2 : c = '<'
    · subst h2
      rw [show escCharA '<' = S "&lt;" from by decide]
      rw [replaceAll_cons_match (by decide), ih (subW_cons_false hsub).2]
      rfl
    by_cases h3 : c = '>'
    · subst h3
      rw [show escCharA '>' = S "&gt;" from by decide]
      have ham : allMismatch id (S "&lt;") (S "&gt;") = true := by decide
      rw [replaceAll_skip_chunk (fun k hk => allMismatch_spec ham k hk _),
          ih (subW_cons_false hsub).2]
      rfl
    by_cases h4 : c = qm
    · subst h4
      rw [show escCharA qm = S "&quot;" from by decide]
      have ham : allMismatch id (S "&lt;") (S "&quot;") = true := by decide
      rw [replaceAll_skip_chunk (fun k hk => allMismatch_spec ham k hk _),
          ih (subW_cons_false hsub).2]
      rfl
    by_cases h5 : c = apos
    · subst h5
      rw [show escCharA apos = S "&apos;" from by decide]
      have ham : allMismatch id (S "&lt;") (S "&apos;") = true := by decide
      rw [replaceAll_skip_chunk (fun k hk => allMismatch_spec ham k hk _),
          ih (subW_cons_false hsub).2]
      rfl
    · rw [show escCharA c = [c] from by simp [escCharA, h2, h3, h4, h5]]
      have hno : prefW id (S "&lt;") (c :: rest.flatMap escCharA) = false := by
        rw [show (S "&lt;") = '&' :: S "lt;" from by decide]
        exact prefW_id_head_false h1
      rw [List.singleton_append, replaceAll_cons_nomatch hno, ih (subW_cons_false hsub).2]
      rw [show escCharB c = [c] from by simp [escCharB, h3, h4, h5]]
      rfl

theorem decode_gt : ∀ s : Str, subW id (S "&gt;") s = false →
    replaceAll (S "&gt;") ['>'] (s.flatMap escCharB) = s.flatMap escCharC := by
  intro s
  induction s with
  | nil => intro _; rfl
  | cons c rest ih =>
    intro hsub
    simp only [List.flatMap_cons]
    by_cases h1 : c = '&'
    · subst h1
      rw [show escCharB '&' = ['&'] from by decide]
      have hno : prefW id (S "&gt;") ('&' :: rest.flatMap escCharB) = false := by
        by_contra hcc
        rw [Bool.not_eq_false] at hcc
        rw [show (S "&gt;") = '&' :: S "gt;" from by decide] at hcc
        have hcc2 : prefW id (S "gt;") (rest.flatMap escCharB) = true := by
          simpa [prefW] using hcc
        have hlift := prefW_flatMap_lift escCharB_cases (by decide) hcc2
        have hpos : prefW id (S "&gt;") ('&' :: rest) = true := by
          rw [show (S "&gt;") = '&' :: S "gt;" from by decide]
          simp [prefW, hlift]
        have hcon : subW id (S "&gt;") ('&' :: rest) = true :=
          subW_eq_true_iff.mpr ⟨0, by simpa using hpos⟩
        rw [hsub] at hcon
        simp at hcon
      rw [List.singleton_append, replaceAll_cons_nomatch hno, ih (subW_cons_false hsub).2]
      rfl
    by_cases h3 : c = '>'
    · subst h3
      rw [show escCharB '>' = S "&gt;" from by decide]
      rw [replaceAll_cons_match (by decide), ih (subW_cons_false hsub).2]
      rfl
    by_cases h4 : c = qm
    · subst h4
      rw [show escCharB qm = S "&quot;" from by decide]
      have ham : allMismatch id (S "&gt;") (S "&quot;") = true := by decide
      rw [replaceAll_skip_chunk (fun k hk => allMismatch_spec ham k hk _),
          ih (subW_cons_false hsub).2]
      rfl
    by_cases h5 : c = apos
    · subst h5
      rw [show escCharB apos = S "&apos;" from by decide]
      have ham : allMismatch id (S "&gt;") (S "&apos;") = true := by decide
      rw [replaceAll_skip_chunk (fun k hk => allMismatch_spec ham k hk _),
          ih (subW_cons_false hsub).2]
      rfl
    · rw [show escCharB c = [c] from by simp [escCharB, h3, h4, h5]]
      have hno : prefW id (S "&gt;") (c :: rest.flatMap escCharB) = false := by
        rw [show (S "&gt;") = '&' :: S "gt;" from by decide]
        exact prefW_id_head_false h1
      rw [List.singleton_append, replaceAll_cons_nomatch hno, ih (subW_cons_false hsub).2]
      rw [show escCharC c = [c] from by simp [escCharC, h4, h5]]
      rfl

theorem decode_quot : ∀ s : Str, subW id (S "&quot;") s = false →
    replaceAll (S "&quot;") [qm] (s.flatMap escCharC) = s.flatMap escCharD := by
  intro s
  induction s with
  | nil => intro _; rfl
  | cons c rest ih =>
    intro hsub
    simp only [List.flatMap_cons]
    by_cases h1 : c = '&'
    · subst h1
      rw [show escCharC '&' = ['&'] from by decide]
      have hno : prefW id (S "&quot;") ('&' :: rest.flatMap escCharC) = false := by
        by_contra hcc
        rw [Bool.not_eq_false] at hcc
        rw [show (S "&quot;") = '&' :: S "quot;" from by decide] at hcc
        have hcc2 : prefW id (S "quot;") (rest.flatMap escCharC) = true := by
          simpa [prefW] using hcc
        have hlift := prefW_flatMap_lift escCharC_cases (by decide) hcc2
        have hpos : prefW id (S "&quot;") ('&' :: rest) = true := by
          rw [show (S "&quot;") = '&' :: S "quot;" from by decide]
          simp [prefW, hlift]
        have hcon : subW id (S "&quot;") ('&' :: rest) = true :=
          subW_eq_true_iff.mpr ⟨0, by simpa using hpos⟩
        rw [hsub] at hcon
        simp at hcon
      rw [List.singleton_append, replaceAll_cons_nomatch hno, ih (subW_cons_false hsub).2]
      rfl
    by_cases h4 : c = qm
    · subst h4
      rw [show escCharC qm = S "&quot;" from by decide]
      rw [replaceAll_cons_match (by decide), ih (subW_cons_false hsub).2]
      rfl
    by_cases h5 : c = apos
    · subst h5
      rw [show escCharC apos = S "&apos;" from by decide]
      have ham : allMismatch id (S "&quot;") (S "&apos;") = true := by decide
      rw [replaceAll_skip_chunk (fun k hk => allMismatch_spec ham k hk _),
          ih (subW_cons_false hsub).2]
      rfl
    · rw [show escCharC c = [c] from by simp [escCharC, h4, h5]]
      have hno : prefW id (S "&quot;") (c :: rest.flatMap escCharC) = false := by
        rw [show (S "&quot;") = '&' :: S "quot;" from by decide]
        exact prefW_id_head_false h1
      rw [List.singleton_append, replaceAll_cons_nomatch hno, ih (subW_cons_false hsub).2]
      rw [show escCharD c = [c] from by simp [escCharD, h5]]
      rfl

theorem decode_apos : ∀ s : Str, subW id (S "&apos;") s = false →
    replaceAll (S "&apos;") [apos] (s.flatMap escCharD) = s := by
  intro s
  induction s with
  | nil => intro _; rfl
  | cons c rest ih =>
    intro hsub
    simp only [List.flatMap_cons]
    by_cases h1 : c = '&'
    · subst h1
      rw [show escCharD '&' = ['&'] from by decide]
      have hno : prefW id (S "&apos;") ('&' :: rest.flatMap escCharD) = false := by
        by_contra hcc
        rw [Bool.not_eq_false] at hcc
        rw [show (S "&apos;") = '&' :: S "apos;" from by decide] at hcc
        have hcc2 : prefW id (S "apos;") (rest.flatMap escCharD) = true := by
          simpa [prefW] using hcc
        have hlift := prefW_flatMap_lift escCharD_cases (by decide) hcc2
        have hpos : prefW id (S "&apos;") ('&' :: rest) = true := by
          rw [show (S "&apos;") = '&' :: S "apos;" from by decide]
          simp [prefW, hlift]
        have hcon : subW id (S "&apos;") ('&' :: rest) = true :=
          subW_eq_true_iff.mpr ⟨0, by simpa using hpos⟩
        rw [hsub] at hcon
        simp at hcon
      rw [List.singleton_append, replaceAll_cons_nomatch hno, ih (subW_cons_false hsub).2]
    by_cases h5 : c = apos
    · subst h5
      rw [show escCharD apos = S "&apos;" from by decide]
      rw [replaceAll_cons_match (by decide), ih (subW_cons_false hsub).2]
      rfl
    · rw [show escCharD c = [c] from by simp [escCharD, h5]]
      have hno : prefW id (S "&apos;") (c :: rest.flatMap escCharD) = false := by
        rw [show (S "&apos;") = '&' :: S "apos;" from by decide]
        exact prefW_id_head_false h1
      rw [List.singleton_append, replaceAll_cons_nomatch hno, ih (subW_cons_false hsub).2]

/-- The decode-after-escape round trip: it restores the original text
exactly when the original contains none of the four entity spellings that
the `&amp;`-first decode order double-decodes. -/
theorem decodeHTML_escapeXML (s : Str) (h1 : subW id (S "&lt;") s = false)
    (h2 : subW id (S "&gt;") s = false) (h3 : subW id (S "&quot;") s = false)
    (h4 : subW id (S "&apos;") s = false) :
    RSSParser.decodeHTML (RSSFeedBuilder.escapeXML s) = s := by
  rw [escapeXML_flatMap]
  unfold RSSParser.decodeHTML
  rw [decode_amp, decode_lt s h1, decode_gt s h2, decode_quot s h3, decode_apos s h4]

/-! ### Character-level facts about escaped text -/

theorem lowerC_eq_lt_iff {c : Char} : lowerC c = '<' ↔ c = '<' := by
  unfold lowerC
  split <;> first | decide | rfl

theorem escChar_ne_nil (c : Char) : escChar c ≠ [] := by
  unfold escChar
  split
  · decide
  split
  · decide
  split
  · decide
  split
  · decide
  split
  · decide
  · simp

theorem escapeXML_mem {s : Str} : ∀ c ∈ RSSFeedBuilder.escapeXML s, c ≠ '<' ∧ c ≠ '>' ∧
    (c ∈ s ∨ c ∈ S "&amp;ltgquos") := by
  rw [escapeXML_flatMap]
  intro c hc
  rw [List.mem_flatMap] at hc
  obtain ⟨x, hxs, hcx⟩ := hc
  unfold escChar at hcx
  by_cases h1 : x = '&'
  · rw [if_pos h1] at hcx
    rw [show S "&amp;" = ['&', 'a', 'm', 'p', ';'] from by decide] at hcx
    simp only [List.mem_cons, List.not_mem_nil, or_false] at hcx
    rcases hcx with h | h | h | h | h <;> subst h <;>
      exact ⟨by decide, by decide, Or.inr (by decide)⟩
  rw [if_neg h1] at hcx
  by_cases h2 : x = '<'
  · rw [if_pos h2] at hcx
    rw [show S "&lt;" = ['&', 'l', 't', ';'] from by decide] at hcx
    simp only [List.mem_cons, List.not_mem_nil, or_false] at hcx
    rcases hcx with h | h | h | h <;> subst h <;>
      exact ⟨by decide, by decide, Or.inr (by decide)⟩
  rw [if_neg h2] at hcx
  by_cases h3 : x = '>'
  · rw [if_pos h3] at hcx
    rw [show S "&gt;" = ['&', 'g', 't', ';'] from by decide] at hcx
    simp only [List.mem_cons, List.not_mem_nil, or_false] at hcx
    rcases hcx with h | h | h | h <;> subst h <;>
      exact ⟨by decide, by decide, Or.inr (by decide)⟩
  rw [if_neg h3] at hcx
  by_cases h4 : x = qm
  · rw [if_pos h4] at hcx
    rw [show S "&quot;" = ['&', 'q', 'u', 'o', 't', ';'] from by decide] at hcx
    simp only [List.mem_cons, List.not_mem_nil, or_false] at hcx
    rcases hcx with h | h | h | h | h | h <;> subst h <;>
      exact ⟨by decide, by decide, Or.inr (by decide)⟩
  rw [if_neg h4] at hcx
  by_cases h5 : x = apos
  · rw [if_pos h5] at hcx
    rw [show S "&apos;" = ['&', 'a', 'p', 'o', 's', ';'] from by decide] at hcx
    simp only [List.mem_cons, List.not_mem_nil, or_false] at hcx
    rcases hcx with h | h | h | h | h | h <;> subst h <;>
      exact ⟨by decide, by decide, Or.inr (by decide)⟩
  rw [if_neg h5] at hcx
  simp only [List.mem_cons, List.not_mem_nil, or_false] at hcx
  subst hcx
  exact ⟨h2, h3, Or.inl hxs⟩

theorem escapeXML_no_lt {s : Str} : ∀ c ∈ RSSFeedBuilder.escapeXML s, c ≠ '<' :=
  fun c hc => (escapeXML_mem c hc).1

theorem escapeXML_no_gt {s : Str} : ∀ c ∈ RSSFeedBuilder.escapeXML s, c ≠ '>' :=
  fun c hc => (escapeXML_mem c hc).2.1

/-! ### `trim` fixed points and escaped text -/

theorem trimL_eq_self_of {s : Str}
    (hh : ∀ c, s.head? = some c → isJsWs c = false)
    (hl : ∀ c, s.getLast? = some c → isJsWs c = false) : trimL s = s := by
  unfold trimL
  have h1 : s.dropWhile isJsWs = s := by
    cases s with
    | nil => rfl
    | cons c r =>
      have hc : isJsWs c = false := hh c rfl
      rw [List.dropWhile_cons, hc]
      simp
  rw [h1]
  have h2 : s.reverse.dropWhile isJsWs = s.reverse := by
    cases hr : s.reverse with
    | nil => rfl
    | cons c r =>
      have hc : s.getLast? = some c := by rw [← List.head?_reverse, hr]; rfl
      have hcw : isJsWs c = false := hl c hc
      rw [List.dropWhile_cons, hcw]
      simp
  rw [h2, List.reverse_reverse]

theorem trim_head_not_ws {s : Str} (h : trimL s = s) :
    ∀ c, s.head? = some c → isJsWs c = false := by
  intro c hc
  by_contra hw
  rw [Bool.not_eq_false] at hw
  cases s with
  | nil => simp at hc
  | cons d r =>
    simp only [List.head?_cons, Option.some.injEq] at hc
    rw [← hc] at hw
    have hlen : (trimL (d :: r)).length < (d :: r).length := by
      unfold trimL
      have h1 : (d :: r).dropWhile isJsWs = r.dropWhile isJsWs := by
        rw [List.dropWhile_cons, hw]; simp
      rw [h1]
      have l1 : (r.dropWhile isJsWs).length ≤ r.length :=
        (List.dropWhile_suffix _).length_le
      have l2 : ((r.dropWhile isJsWs).reverse.dropWhile isJsWs).length ≤
          (r.dropWhile isJsWs).reverse.length :=
        (List.dropWhile_suffix _).length_le
      simp only [List.length_reverse] at l2
      simp only [List.length_reverse, List.length_cons]
      omega
    rw [h] at hlen
    omega

theorem trim_getLast_not_ws {s : Str} (h : trimL s = s) :
    ∀ c, s.getLast? = some c → isJsWs c = false := by
  intro c hc
  by_contra hw
  rw [Bool.not_eq_false] at hw
  have e : (trimL s).length = s.length := by rw [h]
  have hd1 : s.dropWhile isJsWs = s := by
    have l1 : (s.dropWhile isJsWs).length ≤ s.length := (List.dropWhile_suffix _).length_le
    have l2 : ((s.dropWhile isJsWs).reverse.dropWhile isJsWs).length ≤
        (s.dropWhile isJsWs).reverse.length :=
      (List.dropWhile_suffix _).length_le
    unfold trimL at e
    simp only [List.length_reverse] at e l2
    exact (List.dropWhile_suffix _).eq_of_length (by omega)
  have hrev : s.reverse.head? = some c := by rw [List.head?_reverse]; exact hc
  cases hr : s.reverse with
  | nil => rw [hr] at hrev; simp at hrev
  | cons d rr =>
    rw [hr] at hrev
    simp only [List.head?_cons, Option.some.injEq] at hrev
    rw [← hrev] at hw
    unfold trimL at e
    rw [hd1, hr] at e
    have h2 : (d :: rr).dropWhile isJsWs = rr.dropWhile isJsWs := by
      rw [List.dropWhile_cons, hw]; simp
    rw [h2] at e
    have l3 : (rr.dropWhile isJsWs).length ≤ rr.length := (List.dropWhile_suffix _).length_le
    have hsl : s.length = rr.length + 1 := by
      have := congrArg List.length hr
      simpa using this
    simp only [List.length_reverse] at e
    omega

theorem escChar_head (c : Char) : (escChar c).head? = some '&' ∨ (escChar c).head? = some c := by
  unfold escChar
  split
  · left; decide
  split
  · left; decide
  split
  · left; decide
  split
  · left; decide
  split
  · left; decide
  · right; rfl

theorem escChar_getLast (c : Char) :
    (escChar c).getLast? = some ';' ∨ (escChar c).getLast? = some c := by
  unfold escChar
  split
  · left; decide
  split
  · left; decide
  split
  · left; decide
  split
  · left; decide
  split
  · left; decide
  · right; rfl

theorem escapeXML_trim {s : Str} (h : trimL s = s) :
    trimL (RSSFeedBuilder.escapeXML s) = RSSFeedBuilder.escapeXML s := by
  apply trimL_eq_self_of
  · intro c hc
    cases s with
    | nil => simp [RSSFeedBuilder.escapeXML, replaceAll, replaceAllF] at hc
    | cons d r =>
      rw [escapeXML_flatMap] at hc
      simp only [List.flatMap_cons] at hc
      rw [List.head?_append_of_ne_nil _ (escChar_ne_nil d)] at hc
      rcases escChar_head d with he | he
      · rw [he] at hc
        simp only [Option.some.injEq] at hc
        rw [← hc]
        decide
      · rw [he] at hc
        simp only [Option.some.injEq] at hc
        rw [← hc]
        exact trim_head_not_ws h d rfl
  · intro c hc
    rcases s.eq_nil_or_concat with hnil | ⟨t, d, hd⟩
    · subst hnil
      simp [RSSFeedBuilder.escapeXML, replaceAll, replaceAllF] at hc
    · subst hd
      rw [escapeXML_flatMap, List.concat_eq_append, List.flatMap_append] at hc
      simp only [List.flatMap_cons, List.flatMap_nil, List.append_nil] at hc
      rw [List.getLast?_append] at hc
      rcases escChar_getLast d with he | he
      · rw [he] at hc
        simp only [Option.or, Option.some.injEq] at hc
        rw [← hc]
        decide
      · rw [he] at hc
        simp only [Option.or, Option.some.injEq] at hc
        rw [← hc]
        exact trim_getLast_not_ws h d (by rw [List.concat_eq_append]; exact List.getLast?_concat t)

/-! ### Locating and missing tag matches -/

theorem prefW_head_ne {f : Char → Char} {p0 c : Char} {pr s : Str} (h : (f p0 == f c) = false) :
    prefW f (p0 :: pr) (c :: s) = false := by
  simp [prefW, h]

theorem noStart_append2 {f : Char → Char} {p A B r : Str}
    (hA : ∀ k, k < A.length → prefW f p (List.drop k A ++ (B ++ r)) = false)
    (hB : ∀ k, k < B.length → prefW f p (List.drop k B ++ r) = false) :
    ∀ k, k < (A ++ B).length → prefW f p (List.drop k (A ++ B) ++ r) = false := by
  intro k hk
  by_cases hka : k < A.length
  · rw [show List.drop k (A ++ B) ++ r = List.drop k A ++ (B ++ r) by
      rw [List.drop_append_of_le_length (Nat.le_of_lt hka), List.append_assoc]]
    exact hA k hka
  · have hd : List.drop k (A ++ B) = List.drop (k - A.length) B := by
      rw [List.drop_append_eq_append_drop, List.drop_of_length_le (Nat.le_of_not_lt hka),
        List.nil_append]
    rw [hd]
    apply hB
    simp only [List.length_append] at hk
    omega

theorem escaped_no_lt_lower {s : Str} : ∀ c ∈ RSSFeedBuilder.escapeXML s, lowerC c ≠ lowerC '<' := by
  intro c hc heq
  rw [show lowerC '<' = '<' from by decide] at heq
  exact escapeXML_no_lt c hc (lowerC_eq_lt_iff.mp heq)

theorem tryTagAt_none_of_not_pref {tag s : Str} (h : prefW lowerC ('<' :: tag) s = false) :
    tryTagAt tag s = none := by
  unfold tryTagAt
  rw [h]
  simp

theorem scanTag_skip {tag : Str} : ∀ {pre rest : Str},
    (∀ k, k < pre.length → prefW lowerC ('<' :: tag) (List.drop k (pre ++ rest)) = false) →
    scanTag tag (pre ++ rest) = scanTag tag rest := by
  intro pre
  induction pre with
  | nil => intro rest _; rfl
  | cons c p' ih =>
    intro rest h
    have h0 := h 0 (by simp)
    simp only [List.drop_zero, List.cons_append] at h0
    show scanTag tag (c :: (p' ++ rest)) = _
    simp only [scanTag]
    rw [tryTagAt_none_of_not_pref h0]
    exact ih (fun k hk => by simpa using h (k + 1) (by simpa using hk))

theorem noStart_payload_around {f : Char → Char} {p0 : Char} {pr pay rest2 : Str}
    (hpay : ∀ c ∈ pay, f c ≠ f p0) :
    ∀ k, k < pay.length →
      prefW f (p0 :: pr) (List.drop k (pay ++ (p0 :: pr) ++ rest2)) = false := by
  intro k hk
  have hd : List.drop k (pay ++ (p0 :: pr) ++ rest2) =
      List.drop k pay ++ ((p0 :: pr) ++ rest2) := by
    rw [List.append_assoc, List.drop_append_of_le_length (Nat.le_of_lt hk)]
  rw [hd]
  exact noStart_payload hpay _ k hk

theorem tryTagAt_found {tag payload post : Str}
    (hpay : ∀ c ∈ payload, lowerC c ≠ lowerC '<') :
    tryTagAt tag ('<' :: (tag ++ '>' :: (payload ++ closeTagOf tag ++ post))) = some payload := by
  unfold tryTagAt
  have hshape : '<' :: (tag ++ '>' :: (payload ++ closeTagOf tag ++ post)) =
      ('<' :: tag) ++ ('>' :: (payload ++ closeTagOf tag ++ post)) := by
    simp
  have hpre : prefW lowerC ('<' :: tag)
      ('<' :: (tag ++ '>' :: (payload ++ closeTagOf tag ++ post))) = true := by
    rw [hshape]
    exact prefW_self_append lowerC _ _
  rw [hpre]
  simp only [if_true]
  have hdrop : List.drop (tag.length + 1)
      ('<' :: (tag ++ '>' :: (payload ++ closeTagOf tag ++ post))) =
      '>' :: (payload ++ closeTagOf tag ++ post) := by
    rw [hshape, show tag.length + 1 = ('<' :: tag).length from by simp]
    exact List.drop_left _ _
  rw [hdrop]
  rw [show takeGt ('>' :: (payload ++ closeTagOf tag ++ post)) =
      some (payload ++ closeTagOf tag ++ post) from by simp [takeGt]]
  dsimp only
  have hsplit : splitFirstW lowerC (closeTagOf tag) (payload ++ closeTagOf tag ++ post) =
      some (payload, post) := by
    apply splitFirstW_append
    unfold closeTagOf
    exact noStart_payload_around hpay
  rw [hsplit]

theorem scanTag_found {tag pre payload post : Str}
    (hpre : ∀ k, k < pre.length → prefW lowerC ('<' :: tag)
      (List.drop k (pre ++ ('<' :: (tag ++ '>' :: (payload ++ closeTagOf tag ++ post))))) = false)
    (hpay : ∀ c ∈ payload, lowerC c ≠ lowerC '<') :
    scanTag tag (pre ++ ('<' :: (tag ++ '>' :: (payload ++ closeTagOf tag ++ post)))) =
      some payload := by
  rw [scanTag_skip hpre]
  simp only [scanTag]
  rw [tryTagAt_found hpay]

theorem extractTag_found {tag pre payload post : Str}
    (hpre : ∀ k, k < pre.length → prefW lowerC ('<' :: tag)
      (List.drop k (pre ++ ('<' :: (tag ++ '>' :: (payload ++ closeTagOf tag ++ post))))) = false)
    (hpay : ∀ c ∈ payload, lowerC c ≠ lowerC '<') :
    RSSParser.extractTag (pre ++ ('<' :: (tag ++ '>' :: (payload ++ closeTagOf tag ++ post)))) tag =
      some (RSSParser.decodeHTML (trimL payload)) := by
  unfold RSSParser.extractTag
  rw [scanTag_found hpre hpay]

theorem tryCdataAt_found {tag payload post : Str}
    (hsub : subW lowerC (cdataCloseOf tag) payload = false)
    (htails : tailsMismatch lowerC (cdataCloseOf tag) (cdataCloseOf tag) = true) :
    tryCdataAt tag ('<' :: (tag ++ '>' :: (cdataOpen ++ (payload ++ cdataCloseOf tag ++ post)))) =
      some payload := by
  unfold tryCdataAt
  have hshape : '<' :: (tag ++ '>' :: (cdataOpen ++ (payload ++ cdataCloseOf tag ++ post))) =
      ('<' :: tag) ++ ('>' :: (cdataOpen ++ (payload ++ cdataCloseOf tag ++ post))) := by
    simp
  have hpre : prefW lowerC ('<' :: tag)
      ('<' :: (tag ++ '>' :: (cdataOpen ++ (payload ++ cdataCloseOf tag ++ post)))) = true := by
    rw [hshape]
    exact prefW_self_append lowerC _ _
  rw [hpre]
  simp only [if_true]
  have hdrop : List.drop (tag.length + 1)
      ('<' :: (tag ++ '>' :: (cdataOpen ++ (payload ++ cdataCloseOf tag ++ post)))) =
      '>' :: (cdataOpen ++ (payload ++ cdataCloseOf tag ++ post)) := by
    rw [hshape, show tag.length + 1 = ('<' :: tag).length from by simp]
    exact List.drop_left _ _
  rw [hdrop]
  rw [show takeGt ('>' :: (cdataOpen ++ (payload ++ cdataCloseOf tag ++ post))) =
      some (cdataOpen ++ (payload ++ cdataCloseOf tag ++ post)) from by simp [takeGt]]
  dsimp only
  have hcd : prefW lowerC cdataOpen (cdataOpen ++ (payload ++ cdataCloseOf tag ++ post)) = true :=
    prefW_self_append lowerC _ _
  rw [hcd]
  simp only [if_true]
  have hdrop9 : List.drop 9 (cdataOpen ++ (payload ++ cdataCloseOf tag ++ post)) =
      payload ++ cdataCloseOf tag ++ post := by
    rw [show (9 : Nat) = cdataOpen.length from by decide]
    exact List.drop_left _ _
  rw [hdrop9]
  have hsplit : splitFirstW lowerC (cdataCloseOf tag) (payload ++ cdataCloseOf tag ++ post) =
      some (payload, post) := by
    apply splitFirstW_append
    intro k hk
    have hd : List.drop k (payload ++ cdataCloseOf tag ++ post) =
        List.drop k payload ++ (cdataCloseOf tag ++ post) := by
      rw [List.append_assoc, List.drop_append_of_le_length (Nat.le_of_lt hk)]
    rw [hd]
    exact noStart_sub hsub htails post k hk
  rw [hsplit]

theorem tryCdataAt_none_of_not_pref {tag s : Str} (h : prefW lowerC ('<' :: tag) s = false) :
    tryCdataAt tag s = none := by
  unfold tryCdataAt
  rw [h]
  simp

theorem scanCdata_skip {tag : Str} : ∀ {pre rest : Str},
    (∀ k, k < pre.length → prefW lowerC ('<' :: tag) (List.drop k (pre ++ rest)) = false) →
    scanCdata tag (pre ++ rest) = scanCdata tag rest := by
  intro pre
  induction pre with
  | nil => intro rest _; rfl
  | cons c p' ih =>
    intro rest h
    have h0 := h 0 (by simp)
    simp only [List.drop_zero, List.cons_append] at h0
    show scanCdata tag (c :: (p' ++ rest)) = _
    simp only [scanCdata]
    rw [tryCdataAt_none_of_not_pref h0]
    exact ih (fun k hk => by simpa using h (k + 1) (by simpa using hk))

theorem extractCDATA_found {tag pre payload post : Str}
    (hpre : ∀ k, k < pre.length → prefW lowerC ('<' :: tag)
      (List.drop k (pre ++ ('<' :: (tag ++ '>' :: (cdataOpen ++ (payload ++ cdataCloseOf tag ++ post)))))) = false)
    (hsub : subW lowerC (cdataCloseOf tag) payload = false)
    (htails : tailsMismatch lowerC (cdataCloseOf tag) (cdataCloseOf tag) = true) :
    RSSParser.extractCDATA
      (pre ++ ('<' :: (tag ++ '>' :: (cdataOpen ++ (payload ++ cdataCloseOf tag ++ post))))) tag =
      some (trimL payload) := by
  unfold RSSParser.extractCDATA
  rw [scanCdata_skip hpre]
  simp only [scanCdata]
  rw [tryCdataAt_found hsub htails]
  rfl

/-! ### Extraction failure when the tag name occurs nowhere -/

theorem scanTag_none {tag : Str} : ∀ {s : Str}, subW lowerC tag s = false →
    scanTag tag s = none := by
  intro s
  induction s with
  | nil => intro _; rfl
  | cons c rest ih =>
    intro h
    have hpre : prefW lowerC ('<' :: tag) (c :: rest) = false := by
      by_contra hcc
      rw [Bool.not_eq_false] at hcc
      simp only [prefW, Bool.and_eq_true] at hcc
      have h1 : subW lowerC tag rest = true := subW_eq_true_iff.mpr ⟨0, by simpa using hcc.2⟩
      have h2 : subW lowerC tag (c :: rest) = true := by simp [subW, h1]
      rw [h] at h2
      simp at h2
    simp only [scanTag]
    rw [tryTagAt_none_of_not_pref hpre]
    exact ih (subW_cons_false h).2

theorem takeColon_suffix : ∀ {s r : Str}, takeColon s = some r → ∃ k, r = List.drop k s := by
  intro s
  induction s with
  | nil => intro r h; simp [takeColon] at h
  | cons c rest ih =>
    intro r h
    simp only [takeColon] at h
    by_cases hc : (c == ':') = true
    · rw [if_pos hc] at h
      simp only [Option.some.injEq] at h
      exact ⟨1, by simp [h]⟩
    · rw [if_neg hc] at h
      obtain ⟨k, hk⟩ := ih h
      exact ⟨k + 1, by simpa using hk⟩

theorem tryNsAt_none {tag s : Str} (h : subW lowerC tag s = false) : tryNsAt tag s = none := by
  unfold tryNsAt
  split
  · rename_i r
    cases htc : takeColon r with
    | none => rfl
    | some r2 =>
      have hpre : prefW lowerC tag r2 = false := by
        by_contra hcc
        rw [Bool.not_eq_false] at hcc
        obtain ⟨k, hk⟩ := takeColon_suffix htc
        have hsub : subW lowerC tag ('<' :: r) = true := by
          apply subW_eq_true_iff.mpr
          refine ⟨k + 1, ?_⟩
          rw [List.drop_succ_cons, ← hk]
          exact hcc
        rw [h] at hsub
        simp at hsub
      dsimp only
      rw [hpre]
      simp
  · rfl

theorem scanNs_none {tag : Str} : ∀ {s : Str}, subW lowerC tag s = false →
    scanNs tag s = none := by
  intro s
  induction s with
  | nil => intro _; rfl
  | cons c rest ih =>
    intro h
    simp only [scanNs]
    have h2 : subW lowerC tag (c :: rest) = false := h
    rw [tryNsAt_none h2]
    exact ih (subW_cons_false h).2

theorem extractTag_none {xml tag : Str} (h : subW lowerC tag xml = false) :
    RSSParser.extractTag xml tag = none := by
  unfold RSSParser.extractTag
  rw [scanTag_none h]
  by_cases hc : tag.contains ':' = true
  · rw [if_pos hc]
  · rw [if_neg hc]
    rw [scanNs_none h]

/-! ### The stable sort of the aggregator -/

theorem insertSorted_perm (x : FeedItem) (l : List FeedItem) :
    List.Perm (insertSorted x l) (x :: l) := by
  induction l with
  | nil => exact List.Perm.refl _
  | cons y ys ih =>
    unfold insertSorted
    by_cases h : leFeed x y = true
    · rw [if_pos h]
    · rw [if_neg h]
      exact (List.Perm.cons y ih).trans (List.Perm.swap x y ys)

theorem sortFeed_perm (l : List FeedItem) : List.Perm (sortFeed l) l := by
  induction l with
  | nil => exact List.Perm.refl _
  | cons a l ih =>
    show List.Perm (insertSorted a (sortFeed l)) _
    exact (insertSorted_perm a _).trans (List.Perm.cons a ih)

theorem cmpFeed_valid {a b : FeedItem} (ha : validItem a) (hb : validItem b) :
    cmpFeed a b = effKey b - effKey a := by
  unfold validItem at ha hb
  unfold cmpFeed effKey
  cases hva : validKey a with
  | none => exact absurd hva ha
  | some ka =>
    cases hvb : validKey b with
    | none => exact absurd hvb hb
    | some kb => simp

theorem leFeed_iff_valid {a b : FeedItem} (ha : validItem a) (hb : validItem b) :
    leFeed a b = true ↔ effKey b ≤ effKey a := by
  unfold leFeed
  rw [cmpFeed_valid ha hb]
  simp only [decide_eq_true_eq]
  omega

theorem pairwise_insertSorted {x : FeedItem} {l : List FeedItem}
    (hx : validItem x) (hl : ∀ y ∈ l, validItem y)
    (hp : List.Pairwise (fun a b => effKey b ≤ effKey a) l) :
    List.Pairwise (fun a b => effKey b ≤ effKey a) (insertSorted x l) := by
  induction l with
  | nil => simp [insertSorted]
  | cons y ys ih =>
    unfold insertSorted
    rcases List.pairwise_cons.mp hp with ⟨hy, hys⟩
    have hvy := hl y (by simp)
    by_cases h : leFeed x y = true
    · rw [if_pos h]
      have hxy : effKey y ≤ effKey x := (leFeed_iff_valid hx hvy).mp h
      apply List.pairwise_cons.mpr
      refine ⟨?_, hp⟩
      intro z hz
      rcases List.mem_cons.mp hz with rfl | hz2
      · exact hxy
      · exact le_trans (hy z hz2) hxy
    · rw [if_neg h]
      have hyx : effKey x ≤ effKey y := by
        have hnot : ¬ (effKey y ≤ effKey x) := fun hc => h ((leFeed_iff_valid hx hvy).mpr hc)
        omega
      apply List.pairwise_cons.mpr
      constructor
      · intro z hz
        rcases List.mem_cons.mp ((insertSorted_perm x ys).mem_iff.mp hz) with rfl | hz2
        · exact hyx
        · exact hy z hz2
      · exact ih (fun y2 hy2 => hl y2 (List.mem_cons_of_mem _ hy2)) hys

theorem pairwise_sortFeed {l : List FeedItem} (hl : ∀ y ∈ l, validItem y) :
    List.Pairwise (fun a b => effKey b ≤ effKey a) (sortFeed l) := by
  induction l with
  | nil => simp [sortFeed]
  | cons a l ih =>
    show List.Pairwise _ (insertSorted a (sortFeed l))
    apply pairwise_insertSorted (hl a (by simp))
    · intro y hy
      exact hl y (List.mem_cons_of_mem _ ((sortFeed_perm l).mem_iff.mp hy))
    · exact ih (fun y hy => hl y (List.mem_cons_of_mem _ hy))

theorem filter_insertSorted (t : Int) {x : FeedItem} {l : List FeedItem}
    (hx : validItem x) (hl : ∀ y ∈ l, validItem y) :
    (insertSorted x l).filter (fun i => effKey i == t) =
      (x :: l).filter (fun i => effKey i == t) := by
  induction l with
  | nil => rfl
  | cons y ys ih =>
    unfold insertSorted
    by_cases h : leFeed x y = true
    · rw [if_pos h]
    · rw [if_neg h]
      have hvy := hl y (by simp)
      have hgt : effKey x < effKey y := by
        have hnot : ¬ (effKey y ≤ effKey x) := fun hc => h ((leFeed_iff_valid hx hvy).mpr hc)
        omega
      have ihh := ih (fun z hz => hl z (List.mem_cons_of_mem _ hz))
      by_cases hxt : (effKey x == t) = true
      · have hyt : (effKey y == t) = false := by
          simp only [beq_iff_eq] at hxt
          simp only [beq_eq_false_iff_ne, ne_eq]
          omega
        simp only [List.filter_cons, hxt, hyt, if_true, Bool.false_eq_true, if_false, ihh]
      · rw [Bool.not_eq_true] at hxt
        simp only [List.filter_cons, hxt, Bool.false_eq_true, if_false, ihh]

theorem filter_sortFeed (t : Int) {l : List FeedItem} (hl : ∀ y ∈ l, validItem y) :
    (sortFeed l).filter (fun i => effKey i == t) = l.filter (fun i => effKey i == t) := by
  induction l with
  | nil => rfl
  | cons a l ih =>
    show (insertSorted a (sortFeed l)).filter _ = _
    rw [filter_insertSorted t (hl a (by simp))
      (fun y hy => hl y (List.mem_cons_of_mem _ ((sortFeed_perm l).mem_iff.mp hy)))]
    simp only [List.filter_cons]
    rw [ih (fun y hy => hl y (List.mem_cons_of_mem _ hy))]

theorem invalid_insert_front {a : FeedItem} (ha : a.pubDate = some none) (l : List FeedItem) :
    insertSorted a l = a :: l := by
  cases l with
  | nil => rfl
  | cons y ys =>
    unfold insertSorted
    rw [if_pos]
    unfold leFeed cmpFeed validKey
    rw [ha]
    simp

/-! ### Decomposing the built document -/

theorem intercalate_cons_cons (sep a b : Str) (t : List Str) :
    List.intercalate sep (a :: b :: t) = a ++ sep ++ List.intercalate sep (b :: t) := by
  simp [List.intercalate, List.intersperse]

theorem intercalate_single (sep a : Str) : List.intercalate sep [a] = a := by
  simp [List.intercalate]

theorem intercalate_cons_ne (sep a : Str) (ts : List Str) (h : ts ≠ []) :
    List.intercalate sep (a :: ts) = a ++ sep ++ List.intercalate sep ts := by
  cases ts with
  | nil => exact absurd rfl h
  | cons b t => exact intercalate_cons_cons sep a b t

theorem intercalate_append_ne (sep : Str) : ∀ (xs ys : List Str), xs ≠ [] → ys ≠ [] →
    List.intercalate sep (xs ++ ys) =
      List.intercalate sep xs ++ sep ++ List.intercalate sep ys := by
  intro xs
  induction xs with
  | nil => intro ys h _; exact absurd rfl h
  | cons a t ih =>
    intro ys _ hy
    cases t with
    | nil =>
      rw [List.singleton_append, intercalate_cons_ne sep a ys hy, intercalate_single]
    | cons a2 t2 =>
      rw [List.cons_append, intercalate_cons_ne sep a (a2 :: t2 ++ ys) (by simp),
        intercalate_cons_cons sep a a2 t2]
      rw [ih ys (by simp) hy]
      simp [List.append_assoc]

theorem buildItem_goodItem {it : FeedItem} (hg : GoodItem it) :
    RSSFeedBuilder.buildItem it = S "<item>" ++ itemBody it ++ S "</item>" := by
  obtain ⟨-, -, -, -, -, -, -, -, -, -, ha, hcat, hcom, henc, hgid, hpd, hsrc⟩ := hg
  unfold RSSFeedBuilder.buildItem RSSFeedBuilder.buildItemLines
  rw [ha, hcat, hcom, henc, hgid, hpd, hsrc]
  simp only [optLine, jsTruthyStr, List.isEmpty_nil, Bool.not_true, Bool.false_eq_true, if_false,
    List.append_nil, List.nil_append]
  simp only [List.cons_append, List.nil_append]
  rw [intercalate_cons_cons, intercalate_cons_cons, intercalate_cons_cons,
      intercalate_cons_cons, intercalate_cons_cons, intercalate_single]
  unfold itemBody iA1 iA2 iA3 iA4 iA5
  rw [show S "\n<title>" = ['\n'] ++ S "<title>" from by decide,
      show S "</title>\n<link>" = S "</title>" ++ ['\n'] ++ S "<link>" from by decide,
      show S "</link>\n<description><![CDATA[" =
        S "</link>" ++ ['\n'] ++ S "<description><![CDATA[" from by decide,
      show S "]]></description>\n<guid isPermaLink=" ++ [qm] ++ S "true" ++ [qm] ++ ['>'] =
        S "]]></description>" ++ ['\n'] ++
          (S "<guid isPermaLink=" ++ [qm] ++ S "true" ++ [qm] ++ ['>']) from by decide,
      show S "</guid>\n" = S "</guid>" ++ ['\n'] from by decide]
  simp only [List.append_assoc]

theorem ic_items : ∀ (items : List FeedItem), (∀ it ∈ items, GoodItem it) →
    List.intercalate ['\n'] (items.map RSSFeedBuilder.buildItem ++ [S "</channel>", S "</rss>"]) =
      renderTail items := by
  intro items
  induction items with
  | nil => intro _; decide
  | cons it rest ih =>
    intro hgood
    simp only [List.map_cons, List.cons_append]
    rw [intercalate_cons_ne _ _ _ (by cases rest <;> simp)]
    rw [ih (fun x hx => hgood x (List.mem_cons_of_mem _ hx))]
    rw [buildItem_goodItem (hgood it (by simp))]
    show _ = S "<item>" ++ (itemBody it ++ (S "</item>" ++ ('\n' :: renderTail rest)))
    simp [List.append_assoc]

theorem build_decomp (items : List FeedItem) (hgood : ∀ it ∈ items, GoodItem it) :
    RSSFeedBuilder.build cfg0 items = chanStr0 ++ renderTail items := by
  unfold RSSFeedBuilder.build
  rw [List.append_assoc]
  rw [intercalate_append_ne ['\n'] (RSSFeedBuilder.chanLines cfg0)
    (items.map RSSFeedBuilder.buildItem ++ [S "</channel>", S "</rss>"]) (by decide)
    (by cases items <;> simp)]
  rw [ic_items items hgood]
  unfold chanStr0
  simp [List.append_assoc]

theorem itemBody_title_shape (it : FeedItem) :
    itemBody it = ['\n'] ++ ('<' :: (S "title" ++ '>' :: (RSSFeedBuilder.escapeXML it.title ++
      closeTagOf (S "title") ++
      (S "\n<link>" ++ (RSSFeedBuilder.escapeXML it.link ++ (iA3 ++ (it.description ++
        (iA4 ++ (RSSFeedBuilder.escapeXML it.link ++ iA5))))))))) := by
  unfold itemBody
  rw [show iA1 = ['\n'] ++ ('<' :: S "title") ++ ['>'] from by decide,
      show iA2 = closeTagOf (S "title") ++ S "\n<link>" from by decide]
  simp [List.append_assoc]

theorem itemBody_link_shape (it : FeedItem) :
    itemBody it = (iA1 ++ (RSSFeedBuilder.escapeXML it.title ++ (S "</title>" ++ ['\n']))) ++
      ('<' :: (S "link" ++ '>' :: (RSSFeedBuilder.escapeXML it.link ++
        closeTagOf (S "link") ++
        (S "\n<description><![CDATA[" ++ (it.description ++
          (iA4 ++ (RSSFeedBuilder.escapeXML it.link ++ iA5))))))) := by
  unfold itemBody
  rw [show iA2 = (S "</title>" ++ ['\n']) ++ ('<' :: S "link") ++ ['>'] from by decide,
      show iA3 = closeTagOf (S "link") ++ S "\n<description><![CDATA[" from by decide]
  simp [List.append_assoc]

theorem itemBody_desc_shape (it : FeedItem) :
    itemBody it = (iA1 ++ (RSSFeedBuilder.escapeXML it.title ++ (iA2 ++
      (RSSFeedBuilder.escapeXML it.link ++ (S "</link>" ++ ['\n']))))) ++
      ('<' :: (S "description" ++ '>' :: (cdataOpen ++ (it.description ++
        cdataCloseOf (S "description") ++
        (['\n'] ++ (S "<guid isPermaLink=" ++ [qm] ++ S "true" ++ [qm] ++ ['>']) ++
          (RSSFeedBuilder.escapeXML it.link ++ iA5)))))) := by
  unfold itemBody
  rw [show iA3 = (S "</link>" ++ ['\n']) ++ ('<' :: S "description") ++ ['>'] ++ cdataOpen
        from by decide,
      show iA4 = cdataCloseOf (S "description") ++
        (['\n'] ++ (S "<guid isPermaLink=" ++ [qm] ++ S "true" ++ [qm] ++ ['>'])) from by decide]
  simp [List.append_assoc]

theorem noStart_pre {f : Char → Char} {p pre r : Str}
    (h : ∀ k, k < pre.length → prefW f p (List.drop k pre ++ r) = false) :
    ∀ k, k < pre.length → prefW f p (List.drop k (pre ++ r)) = false := by
  intro k hk
  rw [List.drop_append_of_le_length (Nat.le_of_lt hk)]
  exact h k hk

set_option maxHeartbeats 2000000 in
theorem parseItem_tld {it : FeedItem} (hg : GoodItem it) (u : Str) (st : Option Str) :
    tldOf (RSSParser.parseRSSItem (itemBody it) u st) = tldOf it := by
  obtain ⟨hT0, hTtrim, ⟨hT1, hT2, hT3, hT4⟩, hLtrim, ⟨hL1, hL2, hL3, hL4⟩, hD0, hDtrim,
    hDitem, hDcd, hDfeed, -, -, -, -, -, -, -⟩ := hg
  have htitle : RSSParser.extractTag (itemBody it) (S "title") = some it.title := by
    rw [itemBody_title_shape]
    rw [extractTag_found ?hpre ?hpay]
    · rw [escapeXML_trim hTtrim, decodeHTML_escapeXML it.title hT1 hT2 hT3 hT4]
    case hpay => exact escaped_no_lt_lower
    case hpre =>
      apply noStart_pre
      intro k hk
      have hk0 : k = 0 := by simpa using hk
      subst hk0
      simp only [List.drop_zero, List.singleton_append]
      exact prefW_head_ne (by decide)
  have hlink : RSSParser.extractTag (itemBody it) (S "link") = some it.link := by
    rw [itemBody_link_shape]
    rw [extractTag_found ?hpre ?hpay]
    · rw [escapeXML_trim hLtrim, decodeHTML_escapeXML it.link hL1 hL2 hL3 hL4]
    case hpay => exact escaped_no_lt_lower
    case hpre =>
      apply noStart_pre
      apply noStart_append2
      · intro k hk
        exact allMismatch_spec (show allMismatch lowerC ('<' :: S "link") iA1 = true from by decide)
          k hk _
      · apply noStart_append2
        · intro k hk
          exact noStart_payload escaped_no_lt_lower _ k hk
        · intro k hk
          exact allMismatch_spec (show allMismatch lowerC ('<' :: S "link")
            (S "</title>" ++ ['\n']) = true from by decide) k hk _
  have hdesc : RSSParser.extractCDATA (itemBody it) (S "description") = some it.description := by
    rw [itemBody_desc_shape]
    rw [extractCDATA_found ?hpre hDcd (by decide)]
    · rw [hDtrim]
    case hpre =>
      apply noStart_pre
      apply noStart_append2
      · intro k hk
        exact allMismatch_spec
          (show allMismatch lowerC ('<' :: S "description") iA1 = true from by decide) k hk _
      · apply noStart_append2
        · intro k hk
          exact noStart_payload escaped_no_lt_lower _ k hk
        · apply noStart_append2
          · intro k hk
            exact allMismatch_spec
              (show allMismatch lowerC ('<' :: S "description") iA2 = true from by decide) k hk _
          · apply noStart_append2
            · intro k hk
              exact noStart_payload escaped_no_lt_lower _ k hk
            · intro k hk
              exact allMismatch_spec (show allMismatch lowerC ('<' :: S "description")
                (S "</link>" ++ ['\n']) = true from by decide) k hk _
  have hproj : tldOf (RSSParser.parseRSSItem (itemBody it) u st) =
      (jsOrDefault (RSSParser.extractTag (itemBody it) (S "title")) (S "Untitled"),
       jsOrDefault (RSSParser.extractTag (itemBody it) (S "link")) [],
       jsOrDefault (jsOrOpt (RSSParser.extractCDATA (itemBody it) (S "description"))
         (RSSParser.extractTag (itemBody it) (S "description"))) []) := rfl
  rw [hproj, htitle, hlink, hdesc]
  have hTne : it.title.isEmpty = false := by
    cases h : it.title.isEmpty with
    | false => rfl
    | true => exact absurd (List.isEmpty_iff.mp h) hT0
  have hDne : it.description.isEmpty = false := by
    cases h : it.description.isEmpty with
    | false => rfl
    | true => exact absurd (List.isEmpty_iff.mp h) hD0
  unfold tldOf
  congr 1
  · simp [jsOrDefault, hTne]
  congr 1
  · unfold jsOrDefault
    cases hL : it.link.isEmpty
    · simp
    · rw [List.isEmpty_iff] at hL
      simp [hL]
  · simp [jsOrOpt, jsTruthyStr, jsOrDefault, hDne]

theorem subW_false_of_noOcc {f : Char → Char} {p s : Str}
    (h : ∀ k, prefW f p (List.drop k s) = false) : subW f p s = false := by
  by_contra hc
  rw [Bool.not_eq_false] at hc
  obtain ⟨k, hk⟩ := subW_eq_true_iff.mp hc
  rw [h k] at hk
  exact Bool.false_ne_true hk

theorem noStart_itemBody {it : FeedItem} (hg : GoodItem it) (r : Str) :
    ∀ k, k < (itemBody it).length →
      prefW lowerC (S "</item>") (List.drop k (itemBody it) ++ r) = false := by
  obtain ⟨-, -, -, -, -, -, -, hDitem, hDcd, -, -, -, -, -, -, -, -⟩ := hg
  unfold itemBody
  have hpat : S "</item>" = '<' :: S "/item>" := by decide
  apply noStart_append2
  · intro k hk
    exact allMismatch_spec (show allMismatch lowerC (S "</item>") iA1 = true from by decide) k hk _
  apply noStart_append2
  · intro k hk
    rw [hpat]
    exact noStart_payload escaped_no_lt_lower _ k hk
  apply noStart_append2
  · intro k hk
    exact allMismatch_spec (show allMismatch lowerC (S "</item>") iA2 = true from by decide) k hk _
  apply noStart_append2
  · intro k hk
    rw [hpat]
    exact noStart_payload escaped_no_lt_lower _ k hk
  apply noStart_append2
  · intro k hk
    exact allMismatch_spec (show allMismatch lowerC (S "</item>") iA3 = true from by decide) k hk _
  apply noStart_append2
  · intro k hk
    simp only [List.append_assoc]
    exact noStart_sub hDitem
      (show tailsMismatch lowerC (S "</item>") iA4 = true from by decide) _ k hk
  apply noStart_append2
  · intro k hk
    exact allMismatch_spec (show allMismatch lowerC (S "</item>") iA4 = true from by decide) k hk _
  apply noStart_append2
  · intro k hk
    rw [hpat]
    exact noStart_payload escaped_no_lt_lower _ k hk
  · intro k hk
    exact allMismatch_spec (show allMismatch lowerC (S "</item>") iA5 = true from by decide) k hk _

theorem spans_renderTail : ∀ (items : List FeedItem) {PRE : Str},
    allMismatch lowerC (S "<item>") PRE = true →
    (∀ it ∈ items, GoodItem it) →
    tagSpans (S "<item>") (S "</item>") (PRE ++ renderTail items) = items.map itemBody := by
  intro items
  induction items with
  | nil =>
    intro PRE hPRE _
    apply tagSpans_nil
    apply subW_false_of_noOcc
    apply noOcc_append
    · intro k hk
      exact allMismatch_spec hPRE k hk _
    · exact subW_false_spec (show subW lowerC (S "<item>") (renderTail []) = false from by decide)
  | cons it rest ih =>
    intro PRE hPRE hgood
    have hshape : PRE ++ renderTail (it :: rest) =
        PRE ++ S "<item>" ++ (itemBody it ++ S "</item>" ++ ('\n' :: renderTail rest)) := by
      show PRE ++ (S "<item>" ++ (itemBody it ++ (S "</item>" ++ ('\n' :: renderTail rest)))) = _
      simp [List.append_assoc]
    rw [hshape]
    rw [tagSpans_step (by decide) (by decide) ?hpre ?hspan]
    · rw [show ('\n' :: renderTail rest) = ['\n'] ++ renderTail rest from rfl]
      rw [ih (by decide) (fun x hx => hgood x (List.mem_cons_of_mem _ hx))]
      rfl
    case hpre =>
      intro k hk
      rw [List.append_assoc, List.drop_append_of_le_length (Nat.le_of_lt hk)]
      exact allMismatch_spec hPRE k hk _
    case hspan =>
      intro k hk
      rw [List.append_assoc, List.drop_append_of_le_length (Nat.le_of_lt hk)]
      exact noStart_itemBody (hgood it (by simp)) _ k hk

theorem escaped_no_lt_id {s : Str} : ∀ c ∈ RSSFeedBuilder.escapeXML s, id c ≠ id '<' := by
  intro c hc
  simpa using escapeXML_no_lt c hc

theorem noStart_itemBody_feed {it : FeedItem} (hg : GoodItem it) (r : Str) :
    ∀ k, k < (itemBody it).length →
      prefW id (S "<feed") (List.drop k (itemBody it) ++ r) = false := by
  obtain ⟨-, -, -, -, -, -, -, -, -, hDfeed, -, -, -, -, -, -, -⟩ := hg
  unfold itemBody
  have hpat : S "<feed" = '<' :: S "feed" := by decide
  apply noStart_append2
  · intro k hk
    exact allMismatch_spec (show allMismatch id (S "<feed") iA1 = true from by decide) k hk _
  apply noStart_append2
  · intro k hk
    rw [hpat]
    exact noStart_payload escaped_no_lt_id _ k hk
  apply noStart_append2
  · intro k hk
    exact allMismatch_spec (show allMismatch id (S "<feed") iA2 = true from by decide) k hk _
  apply noStart_append2
  · intro k hk
    rw [hpat]
    exact noStart_payload escaped_no_lt_id _ k hk
  apply noStart_append2
  · intro k hk
    exact allMismatch_spec (show allMismatch id (S "<feed") iA3 = true from by decide) k hk _
  apply noStart_append2
  · intro k hk
    simp only [List.append_assoc]
    exact noStart_sub hDfeed
      (show tailsMismatch id (S "<feed") iA4 = true from by decide) _ k hk
  apply noStart_append2
  · intro k hk
    exact allMismatch_spec (show allMismatch id (S "<feed") iA4 = true from by decide) k hk _
  apply noStart_append2
  · intro k hk
    rw [hpat]
    exact noStart_payload escaped_no_lt_id _ k hk
  · intro k hk
    exact allMismatch_spec (show allMismatch id (S "<feed") iA5 = true from by decide) k hk _

theorem noOcc_feed_renderTail : ∀ (items : List FeedItem), (∀ it ∈ items, GoodItem it) →
    ∀ k, prefW id (S "<feed") (List.drop k (renderTail items)) = false := by
  intro items
  induction items with
  | nil =>
    intro _
    exact subW_false_spec (show subW id (S "<feed") (renderTail []) = false from by decide)
  | cons it rest ih =>
    intro hgood
    rw [show renderTail (it :: rest) =
      S "<item>" ++ (itemBody it ++ (S "</item>" ++ (['\n'] ++ renderTail rest))) from rfl]
    apply noOcc_append
    · intro k hk
      exact allMismatch_spec (show allMismatch id (S "<feed") (S "<item>") = true from by decide)
        k hk _
    apply noOcc_append
    · intro k hk
      exact noStart_itemBody_feed (hgood it (by simp)) _ k hk
    apply noOcc_append
    · intro k hk
      exact allMismatch_spec (show allMismatch id (S "<feed") (S "</item>") = true from by decide)
        k hk _
    apply noOcc_append
    · intro k hk
      exact allMismatch_spec (show allMismatch id (S "<feed") (['\n']) = true from by decide)
        k hk _
    · exact ih (fun x hx => hgood x (List.mem_cons_of_mem _ hx))

set_option maxRecDepth 8000 in
theorem isAtom_build_false {items : List FeedItem} (hgood : ∀ it ∈ items, GoodItem it) :
    RSSParser.isAtomFeed (RSSFeedBuilder.build cfg0 items) = false := by
  unfold RSSParser.isAtomFeed
  have hfeed : subW id (S "<feed") (RSSFeedBuilder.build cfg0 items) = false := by
    rw [build_decomp items hgood]
    apply subW_false_of_noOcc
    apply noOcc_append
    · intro k hk
      exact allMismatch_spec
        (show allMismatch id (S "<feed") chanStr0 = true from by decide) k hk _
    · exact noOcc_feed_renderTail items hgood
  rw [hfeed]
  simp

/-! # Claim theorems -/

set_option maxRecDepth 8000 in
/-- **C5 (corrected, amended form).** Building an RSS document from items
and re-parsing it recovers the titles, links and descriptions verbatim —
but only for items whose title and link do not already contain one of the
four entity spellings `&lt; &gt; &quot; &apos;` (and are trimmed, with a
nonempty description free of the three extraction-breaking markers and no
optional fields): the claim as stated, quantified over items containing
arbitrary `& < > " '` text, is refuted by `C5_title_roundtrip_cex` below,
because `decodeHTML` replaces `&amp;` first, so an original title `&lt;`
is rebuilt as `&amp;lt;` and decoded to `<`. -/
theorem C5_roundtrip_goodItems {items : List FeedItem}
    (hgood : ∀ it ∈ items, GoodItem it) (u : Str) (st : Option Str) :
    (RSSParser.parse (RSSFeedBuilder.build cfg0 items) u st).map tldOf = items.map tldOf := by
  unfold RSSParser.parse
  rw [isAtom_build_false hgood]
  simp only [Bool.false_eq_true, if_false]
  unfold RSSParser.parseRSS
  have hspans : tagSpans (S "<item>") (S "</item>") (RSSFeedBuilder.build cfg0 items)
      = items.map itemBody := by
    rw [build_decomp items hgood]
    exact spans_renderTail items
      (show allMismatch lowerC (S "<item>") chanStr0 = true from by decide) hgood
  rw [hspans, List.map_map, List.map_map]
  apply List.map_congr_left
  intro x hx
  exact parseItem_tld (hgood x hx) u st

/-- **C5, witness.** The round-trip theorem applied to a concrete item
whose description carries HTML markup and a raw `&amp;` entity. -/
theorem C5_roundtrip_goodItems_witness :
    (∀ it ∈ [itHtml], GoodItem it) ∧
    (RSSParser.parse (RSSFeedBuilder.build cfg0 [itHtml]) (S "http://src") (some (S "Source"))).map
        tldOf = [itHtml].map tldOf := by
  have hg : ∀ it ∈ [itHtml], GoodItem it := by
    intro it hit
    simp only [List.mem_singleton] at hit
    subst hit
    unfold GoodItem entFree
    refine ⟨by decide, by decide, ⟨by decide, by decide, by decide, by decide⟩, by decide,
      ⟨by decide, by decide, by decide, by decide⟩, by decide, by decide, by decide, by decide,
      by decide, rfl, rfl, rfl, rfl, rfl, rfl, rfl⟩
  exact ⟨hg, C5_roundtrip_goodItems hg (S "http://src") (some (S "Source"))⟩

set_option maxRecDepth 20000 in
/-- **C5, counterexample.** A title consisting of the literal four
characters `&lt;` does not round-trip: the built document escapes it to
`&amp;lt;`, and `decodeHTML` (replacing `&amp;` first) decodes that to the
single character `<`. -/
theorem C5_title_roundtrip_cex :
    itAmpLt.title = S "&lt;" ∧
    (RSSParser.parse (RSSFeedBuilder.build cfg0 [itAmpLt]) [] none).map FeedItem.title
      = [S "<"] := by
  exact ⟨rfl, by decide⟩

/-! ### Locating the guid line among the built item lines -/

theorem filter_single_false {pred : Str → Bool} {a : Str} (h : pred a = false) :
    [a].filter pred = [] := by
  simp [List.filter, h]

theorem filter_single_true {pred : Str → Bool} {a : Str} (h : pred a = true) :
    [a].filter pred = [a] := by
  simp [List.filter, h]

theorem filter_cons_false {pred : Str → Bool} {a : Str} {l : List Str} (h : pred a = false) :
    (a :: l).filter pred = l.filter pred := by
  simp [List.filter, h]

theorem filter_optLine_none (pred : Str → Bool) (openT closeT : Str) (v : Option Str)
    (h : ∀ s, pred (openT ++ s) = false) :
    (optLine openT closeT v).filter pred = [] := by
  cases v with
  | none => rfl
  | some s =>
    show (if s.isEmpty = true then [] else [openT ++ RSSFeedBuilder.escapeXML s ++ closeT]).filter
      pred = []
    by_cases hs : s.isEmpty = true
    · rw [if_pos hs]
      rfl
    · rw [if_neg hs]
      apply filter_single_false
      rw [List.append_assoc]
      exact h _

theorem filter_guid_buildItemLines (item : FeedItem) :
    (RSSFeedBuilder.buildItemLines item).filter (fun l => prefW id (S "<guid") l)
      = [S "<guid isPermaLink=" ++ [qm]
          ++ (if jsTruthyStr item.guid then S "false" else S "true") ++ [qm] ++ ['>']
          ++ RSSFeedBuilder.escapeXML
               (match item.guid with
                | some g => if g.isEmpty then item.link else g
                | none => item.link)
          ++ S "</guid>"] := by
  unfold RSSFeedBuilder.buildItemLines
  simp only [List.filter_append]
  have h2 : prefW id (S "<guid")
      (S "<title>" ++ RSSFeedBuilder.escapeXML item.title ++ S "</title>") = false := by
    rw [List.append_assoc]
    exact hasMismatch_spec (by decide) _
  have h3 : prefW id (S "<guid")
      (S "<link>" ++ RSSFeedBuilder.escapeXML item.link ++ S "</link>") = false := by
    rw [List.append_assoc]
    exact hasMismatch_spec (by decide) _
  have h4 : prefW id (S "<guid")
      (S "<description><![CDATA[" ++ item.description ++ S "]]></description>") = false := by
    rw [List.append_assoc]
    exact hasMismatch_spec (by decide) _
  rw [filter_cons_false (by decide), filter_cons_false h2, filter_cons_false h3,
    filter_single_false h4]
  rw [filter_optLine_none _ _ _ _ (fun s => hasMismatch_spec (by decide) s)]
  rw [filter_optLine_none _ _ _ _ (fun s => hasMismatch_spec (by decide) s)]
  rw [filter_optLine_none _ _ _ _ (fun s => hasMismatch_spec (by decide) s)]
  have hen : ((match item.enclosure with
      | some e =>
        [S "<enclosure url=" ++ [qm] ++ RSSFeedBuilder.escapeXML e.url ++ [qm]
          ++ S " length=" ++ [qm] ++ intStr e.length ++ [qm]
          ++ S " type=" ++ [qm] ++ RSSFeedBuilder.escapeXML e.type ++ [qm] ++ S " />"]
      | none => ([] : List Str))).filter (fun l => prefW id (S "<guid") l) = [] := by
    cases item.enclosure with
    | none => rfl
    | some e =>
      apply filter_single_false
      simp only [List.append_assoc]
      exact hasMismatch_spec (by decide) _
  rw [hen]
  have hgu := @filter_single_true (fun l => prefW id (S "<guid") l)
    (S "<guid isPermaLink=" ++ [qm]
      ++ (if jsTruthyStr item.guid then S "false" else S "true") ++ [qm] ++ ['>']
      ++ RSSFeedBuilder.escapeXML
           (match item.guid with
            | some g => if g.isEmpty then item.link else g
            | none => item.link)
      ++ S "</guid>")
    (by
      show prefW id (S "<guid") _ = true
      simp only [List.append_assoc]
      rw [prefW_append_of_le _ (by decide)]
      decide)
  rw [hgu]
  have hpu : ((match item.pubDate with
      | some d => [S "<pubDate>" ++ RSSFeedBuilder.formatDate d ++ S "</pubDate>"]
      | none => ([] : List Str))).filter (fun l => prefW id (S "<guid") l) = [] := by
    cases item.pubDate with
    | none => rfl
    | some d =>
      apply filter_single_false
      rw [List.append_assoc]
      exact hasMismatch_spec (by decide) _
  rw [hpu]
  have hso : ((match item.source with
      | some src => [S "<source url=" ++ [qm] ++ RSSFeedBuilder.escapeXML src.url ++ [qm] ++ ['>']
                      ++ RSSFeedBuilder.escapeXML src.title ++ S "</source>"]
      | none => ([] : List Str))).filter (fun l => prefW id (S "<guid") l) = [] := by
    cases item.source with
    | none => rfl
    | some src =>
      apply filter_single_false
      simp only [List.append_assoc]
      exact hasMismatch_spec (by decide) _
  rw [hso]
  rw [filter_single_false (show (fun l => prefW id (S "<guid") l) (S "</item>") = false from
    by decide)]
  simp

theorem aggregate_none_eq (results : List (Option (List FeedItem))) :
    FeedAggregator.aggregate results none
      = sortFeed ((results.map (fun r => r.getD [])).flatten) := rfl

theorem aggregate_some_eq (results : List (Option (List FeedItem))) (k : Int) :
    FeedAggregator.aggregate results (some k)
      = if (0 : Int) < k
        then (sortFeed ((results.map (fun r => r.getD [])).flatten)).take k.toNat
        else sortFeed ((results.map (fun r => r.getD [])).flatten) := rfl

/-- **C1 (corrected, amended form).** For fetch results all of whose items
carry either a parseable date or no date at all (no Invalid Date), the
aggregated output is sorted non-increasingly by the *effective* key —
epoch milliseconds, with an absent date counting as epoch 0 — it is a
permutation of the concatenated input (for the untruncated call), and
items of equal effective key keep their input order (stability).  The
claim as frozen — undated items ordered after ALL dated items — is
refuted by `C1_undated_order_cex`: an undated item (key 0) sorts *before*
any item dated before the epoch. -/
theorem C1_sort_amended (results : List (Option (List FeedItem))) (maxItems : Option Int)
    (hv : ∀ it ∈ ((results.map (fun r => r.getD [])).flatten), validItem it) :
    List.Chain' (fun a b => effPairOK a b = true) (FeedAggregator.aggregate results maxItems) ∧
    List.Perm (FeedAggregator.aggregate results none)
      ((results.map (fun r => r.getD [])).flatten) ∧
    (∀ t : Int, (FeedAggregator.aggregate results none).filter (fun i => effKey i == t)
      = ((results.map (fun r => r.getD [])).flatten).filter (fun i => effKey i == t)) := by
  have hpw : List.Pairwise (fun a b => effKey b ≤ effKey a)
      (sortFeed ((results.map (fun r => r.getD [])).flatten)) := pairwise_sortFeed hv
  refine ⟨?_, ?_, ?_⟩
  · have hsub : List.Sublist (FeedAggregator.aggregate results maxItems)
        (sortFeed ((results.map (fun r => r.getD [])).flatten)) := by
      cases maxItems with
      | none =>
        rw [aggregate_none_eq]
      | some k =>
        rw [aggregate_some_eq]
        by_cases hk : (0 : Int) < k
        · rw [if_pos hk]
          exact List.take_sublist _ _
        · rw [if_neg hk]
    exact List.Pairwise.chain'
      ((hpw.sublist hsub).imp (fun h => by unfold effPairOK; exact decide_eq_true h))
  · rw [aggregate_none_eq]
    exact sortFeed_perm _
  · intro t
    rw [aggregate_none_eq]
    exact filter_sortFeed t hv

/-- **C1, witness.** The amended ordering theorem at a concrete input:
two sources, three items (pre-epoch, recent, undated), truncated to 2. -/
theorem C1_sort_amended_witness :
    (∀ it ∈ ((([some [itPreEpoch, itValid5], some [itNoDate]] :
        List (Option (List FeedItem))).map (fun r => r.getD [])).flatten), validItem it) ∧
    List.Chain' (fun a b => effPairOK a b = true)
      (FeedAggregator.aggregate [some [itPreEpoch, itValid5], some [itNoDate]] (some 2)) := by
  have hv : ∀ it ∈ ((([some [itPreEpoch, itValid5], some [itNoDate]] :
      List (Option (List FeedItem))).map (fun r => r.getD [])).flatten), validItem it := by
    decide
  exact ⟨hv, (C1_sort_amended [some [itPreEpoch, itValid5], some [itNoDate]] (some 2) hv).1⟩

/-- **C1, counterexample.** The undated item sorts *before* the pre-epoch
item, violating the claimed adjacent-pair ordering (undated after all
dated). -/
theorem C1_undated_order_cex :
    FeedAggregator.aggregate [some [itPreEpoch, itNoDate]] none = [itNoDate, itPreEpoch] ∧
    itNoDate.pubDate = none ∧ itPreEpoch.pubDate = some (some (-1000)) ∧
    specPairOK itNoDate itPreEpoch = false := by
  decide

set_option maxRecDepth 20000 in
/-- **C2 (corrected, amended form).** Unparseable date text does parse to
the Invalid Date (`pubDate = some none`), but the comparator turns every
comparison against it into `NaN`, which `Array.prototype.sort` treats as
"equal" — so such an item *keeps its position* (here: an invalid-dated
head item stays at the head, in front of the sorted remainder) instead of
sorting after all validly dated items as claimed; the claimed behaviour
is refuted by `C2_invalid_date_cex`. -/
theorem C2_invalid_date_amended {a : FeedItem} (ha : a.pubDate = some none)
    (rest : List FeedItem) :
    (RSSParser.parse xmlBadDate [] none).map FeedItem.pubDate = [some none] ∧
    FeedAggregator.aggregate [some (a :: rest)] none = a :: sortFeed rest := by
  constructor
  · decide
  · rw [aggregate_none_eq]
    have h1 : (([some (a :: rest)] : List (Option (List FeedItem))).map
        (fun r => r.getD [])).flatten = a :: rest := by
      simp
    rw [h1]
    show insertSorted a (sortFeed rest) = a :: sortFeed rest
    exact invalid_insert_front ha _

/-- **C2, witness.** The amended theorem at a concrete invalid-dated item
in front of a validly dated one. -/
theorem C2_invalid_date_amended_witness :
    itInvalidDate.pubDate = some none ∧
    FeedAggregator.aggregate [some (itInvalidDate :: [itValid5])] none
      = itInvalidDate :: sortFeed [itValid5] :=
  ⟨rfl, (C2_invalid_date_amended rfl [itValid5]).2⟩

set_option maxRecDepth 20000 in
/-- **C2, counterexample.** The parser maps garbage date text to the
Invalid Date, and the aggregator then leaves the invalid-dated item
*before* the validly dated one — whereas a genuinely absent date (third
conjunct) does get reordered after the dated item.  Invalid is therefore
not sorted "as though absent". -/
theorem C2_invalid_date_cex :
    (RSSParser.parse xmlBadDate [] none).map FeedItem.pubDate = [some none] ∧
    FeedAggregator.aggregate [some [itInvalidDate, itValid5]] none = [itInvalidDate, itValid5] ∧
    FeedAggregator.aggregate [some [itNoDate, itValid5]] none = [itValid5, itNoDate] := by
  refine ⟨by decide, by decide, by decide⟩

/-- **C3 (confirmed).** With `maxItems = k` positive, the output is
exactly the first `k` entries of the full sorted merge and its length is
`min k total`; with `k` zero or negative (or absent), the full merged
sorted list is returned. -/
theorem C3_maxItems_truncation (results : List (Option (List FeedItem))) (k : Int) :
    ((0 : Int) < k →
      (FeedAggregator.aggregate results (some k)).length
          = min k.toNat ((results.map (fun r => r.getD [])).flatten).length ∧
      FeedAggregator.aggregate results (some k)
          = (FeedAggregator.aggregate results none).take k.toNat) ∧
    (¬ (0 : Int) < k →
      FeedAggregator.aggregate results (some k) = FeedAggregator.aggregate results none) := by
  constructor
  · intro hk
    have heq : FeedAggregator.aggregate results (some k)
        = (sortFeed ((results.map (fun r => r.getD [])).flatten)).take k.toNat := by
      rw [aggregate_some_eq, if_pos hk]
    constructor
    · rw [heq, List.length_take, (sortFeed_perm _).length_eq]
    · rw [heq, aggregate_none_eq]
  · intro hk
    rw [aggregate_some_eq, if_neg hk, aggregate_none_eq]

/-- **C3, witness.** Truncation to 2 of a 3-item merge. -/
theorem C3_maxItems_truncation_witness :
    (FeedAggregator.aggregate [some [itValid5, itNoDate, itPreEpoch]] (some 2)).length
        = min (Int.toNat 2) (((([some [itValid5, itNoDate, itPreEpoch]] :
            List (Option (List FeedItem))).map (fun r => r.getD [])).flatten).length) ∧
    FeedAggregator.aggregate [some [itValid5, itNoDate, itPreEpoch]] (some 2)
        = (FeedAggregator.aggregate [some [itValid5, itNoDate, itPreEpoch]] none).take
            (Int.toNat 2) :=
  (C3_maxItems_truncation [some [itValid5, itNoDate, itPreEpoch]] 2).1 (by decide)

/-- **C4 (confirmed).** Fault isolation of the aggregation: the output is
a permutation of exactly the successful sources' items (a failed fetch —
network error or non-2xx status — contributes the empty list), the total
untruncated output length is the sum of the successful sources' item
counts, and a failing fetch never aborts the aggregation (it merely
yields `none`). -/
theorem C4_fault_isolation (sources : List (SourceFeed × FetchSim)) :
    List.Perm (FeedAggregator.aggregateSim sources none)
      ((sources.map (fun p => (FeedAggregator.fetchFeedSim p.1 p.2).getD [])).flatten) ∧
    (FeedAggregator.aggregateSim sources none).length
      = (sources.map (fun p => ((FeedAggregator.fetchFeedSim p.1 p.2).getD []).length)).sum ∧
    (∀ s : SourceFeed, FeedAggregator.fetchFeedSim s none = none) ∧
    (∀ s : SourceFeed, ∀ st body, ¬ ((200 : Int) ≤ st ∧ st ≤ 299) →
      FeedAggregator.fetchFeedSim s (some (st, body)) = none) := by
  have hag : FeedAggregator.aggregateSim sources none
      = sortFeed ((sources.map (fun p => (FeedAggregator.fetchFeedSim p.1 p.2).getD [])).flatten)
      := by
    show FeedAggregator.aggregate _ none = _
    rw [aggregate_none_eq, List.map_map]
    rfl
  have hperm : List.Perm (FeedAggregator.aggregateSim sources none)
      ((sources.map (fun p => (FeedAggregator.fetchFeedSim p.1 p.2).getD [])).flatten) := by
    rw [hag]
    exact sortFeed_perm _
  refine ⟨hperm, ?_, fun s => rfl, ?_⟩
  · rw [hperm.length_eq, List.length_flatten, List.map_map]
    rfl
  · intro s st body h
    show (if (200 : Int) ≤ st ∧ st ≤ 299 then
      some (RSSParser.parse body s.url (some s.title)) else none) = none
    rw [if_neg h]

set_option maxRecDepth 40000 in
/-- **C4, witness.** Three sources, the middle one failing with HTTP 500:
its fetch yields `none`, and the aggregate still returns the other two
sources' items (1 + 0 + 2 of them). -/
theorem C4_fault_isolation_witness :
    ¬ ((200 : Int) ≤ 500 ∧ (500 : Int) ≤ 299) ∧
    FeedAggregator.fetchFeedSim ⟨S "http://b", S "B"⟩ (some (500, xmlOneItem)) = none ∧
    (FeedAggregator.aggregateSim srcs0 none).length
      = (srcs0.map (fun p => ((FeedAggregator.fetchFeedSim p.1 p.2).getD []).length)).sum ∧
    (FeedAggregator.aggregateSim srcs0 none).length = 3 := by
  refine ⟨by decide,
    (C4_fault_isolation srcs0).2.2.2 ⟨S "http://b", S "B"⟩ 500 xmlOneItem (by decide),
    (C4_fault_isolation srcs0).2.1, by decide⟩

/-- **C6 (confirmed).** Every built item carries exactly one guid line:
with no explicit guid it is `<guid isPermaLink="true">{escaped link}</guid>`
(link fallback, permalink), with an explicit nonempty guid it is
`<guid isPermaLink="false">{escaped guid}</guid>`. -/
theorem C6_guid_emission (item : FeedItem) :
    ((RSSFeedBuilder.buildItemLines item).filter (fun l => prefW id (S "<guid") l)).length
        = 1 ∧
    (item.guid = none →
      (RSSFeedBuilder.buildItemLines item).filter (fun l => prefW id (S "<guid") l)
        = [S "<guid isPermaLink=" ++ [qm] ++ S "true" ++ [qm] ++ ['>']
            ++ RSSFeedBuilder.escapeXML item.link ++ S "</guid>"]) ∧
    (∀ g, item.guid = some g → g ≠ [] →
      (RSSFeedBuilder.buildItemLines item).filter (fun l => prefW id (S "<guid") l)
        = [S "<guid isPermaLink=" ++ [qm] ++ S "false" ++ [qm] ++ ['>']
            ++ RSSFeedBuilder.escapeXML g ++ S "</guid>"]) := by
  refine ⟨?_, ?_, ?_⟩
  · rw [filter_guid_buildItemLines]
    rfl
  · intro h
    rw [filter_guid_buildItemLines, h]
    rfl
  · intro g h hg
    rw [filter_guid_buildItemLines, h]
    have hge : g.isEmpty = false := by
      cases he : g.isEmpty with
      | false => rfl
      | true => exact absurd (List.isEmpty_iff.mp he) hg
    have ht : jsTruthyStr (some g) = true := by
      show (!g.isEmpty) = true
      rw [hge]
      rfl
    rw [ht]
    simp only [hge, Bool.false_eq_true, if_true, if_false]

/-- **C6, witness.** The guid line of a guid-less item (link fallback,
permalink) and of an item with an explicit guid. -/
theorem C6_guid_emission_witness :
    (itHtml.guid = none ∧
      (RSSFeedBuilder.buildItemLines itHtml).filter (fun l => prefW id (S "<guid") l)
        = [S "<guid isPermaLink=" ++ [qm] ++ S "true" ++ [qm] ++ ['>']
            ++ RSSFeedBuilder.escapeXML itHtml.link ++ S "</guid>"]) ∧
    (itGuid.guid = some (S "tag:g-1") ∧ S "tag:g-1" ≠ ([] : Str) ∧
      (RSSFeedBuilder.buildItemLines itGuid).filter (fun l => prefW id (S "<guid") l)
        = [S "<guid isPermaLink=" ++ [qm] ++ S "false" ++ [qm] ++ ['>']
            ++ RSSFeedBuilder.escapeXML (S "tag:g-1") ++ S "</guid>"]) :=
  ⟨⟨rfl, (C6_guid_emission itHtml).2.1 rfl⟩,
   ⟨rfl, by decide, (C6_guid_emission itGuid).2.2 (S "tag:g-1") rfl (by decide)⟩⟩

set_option maxRecDepth 40000 in
/-- **C7 (confirmed).** `parse` dispatches to the Atom path exactly when
the document contains both the `<feed` container marker and the Atom
namespace declaration; a concrete Atom document whose body also contains
the stray string `rss` is still parsed via the Atom path (its `entry`,
not any `item`, is extracted). -/
theorem C7_atom_dispatch (xml u : Str) (st : Option Str) :
    (RSSParser.parse xml u st =
      if subW id (S "<feed") xml && subW id atomNsMarker xml
      then RSSParser.parseAtom xml u st else RSSParser.parseRSS xml u st) ∧
    RSSParser.isAtomFeed atomWithStrayRss = true ∧
    (RSSParser.parse atomWithStrayRss [] none).map FeedItem.title
      = [S "an rss-flavoured title"] := by
  refine ⟨rfl, by decide, by decide⟩

/-- **C8 (confirmed).** Degradation to defaults: a non-Atom document with
no `<item>` occurrence parses to the empty list; an item span with no
`title` occurrence parses to the title `Untitled`; one with no `link`
occurrence parses to the empty link. -/
theorem C8_parser_defaults (xml itemXML u : Str) (st : Option Str) :
    (RSSParser.isAtomFeed xml = false → subW lowerC (S "<item>") xml = false →
      RSSParser.parse xml u st = []) ∧
    (subW lowerC (S "title") itemXML = false →
      (RSSParser.parseRSSItem itemXML u st).title = S "Untitled") ∧
    (subW lowerC (S "link") itemXML = false →
      (RSSParser.parseRSSItem itemXML u st).link = []) := by
  refine ⟨?_, ?_, ?_⟩
  · intro hatom hitem
    unfold RSSParser.parse
    rw [hatom]
    simp only [Bool.false_eq_true, if_false]
    unfold RSSParser.parseRSS
    rw [tagSpans_nil hitem]
    rfl
  · intro h
    show jsOrDefault (RSSParser.extractTag itemXML (S "title")) (S "Untitled") = _
    rw [extractTag_none h]
    rfl
  · intro h
    show jsOrDefault (RSSParser.extractTag itemXML (S "link")) [] = _
    rw [extractTag_none h]
    rfl

/-- **C8, witness.** A malformed, item-less input parses to `[]`, and an
item span with neither `title` nor `link` text gets both defaults. -/
theorem C8_parser_defaults_witness :
    (RSSParser.isAtomFeed (S "plain text, no elements") = false ∧
     subW lowerC (S "<item>") (S "plain text, no elements") = false ∧
     RSSParser.parse (S "plain text, no elements") [] none = []) ∧
    (RSSParser.parseRSSItem (S "<x>nothing here</x>") [] none).title = S "Untitled" ∧
    (RSSParser.parseRSSItem (S "<x>nothing here</x>") [] none).link = [] := by
  refine ⟨⟨by decide, by decide,
      (C8_parser_defaults (S "plain text, no elements") (S "<x>nothing here</x>") [] none).1
        (by decide) (by decide)⟩,
    (C8_parser_defaults (S "plain text, no elements") (S "<x>nothing here</x>") [] none).2.1
      (by decide),
    (C8_parser_defaults (S "plain text, no elements") (S "<x>nothing here</x>") [] none).2.2
      (by decide)⟩

/-- **C9 (confirmed).** A present-but-empty guid builds the very same
item XML as an absent one: `item.guid || item.link` falls back to the
link and `item.guid ? 'false' : 'true'` sees the empty string as falsy. -/
theorem C9_empty_guid (item : FeedItem) (h : item.guid = some []) :
    RSSFeedBuilder.buildItem item = RSSFeedBuilder.buildItem {item with guid := none} := by
  unfold RSSFeedBuilder.buildItem RSSFeedBuilder.buildItemLines
  rw [h]
  rfl

/-- **C9, witness.** The empty-guid collapse at a concrete item. -/
theorem C9_empty_guid_witness :
    RSSFeedBuilder.buildItem {itHtml with guid := some []}
      = RSSFeedBuilder.buildItem {{itHtml with guid := some []} with guid := none} :=
  C9_empty_guid {itHtml with guid := some []} rfl

/-- **C10 (confirmed).** A numeric channel option set to `0` (`ttl`,
`image.width`, `image.height`) is omitted from the output exactly as if
it were absent, because `if (x)` sees `0` as falsy. -/
theorem C10_zero_numeric_omitted (cfg : FeedConfig) (img : FeedImage)
    (items : List FeedItem) :
    (RSSFeedBuilder.build {cfg with ttl := some 0} items
       = RSSFeedBuilder.build {cfg with ttl := none} items) ∧
    (RSSFeedBuilder.build {cfg with image := some {img with width := some 0}} items
       = RSSFeedBuilder.build {cfg with image := some {img with width := none}} items) ∧
    (RSSFeedBuilder.build {cfg with image := some {img with height := some 0}} items
       = RSSFeedBuilder.build {cfg with image := some {img with height := none}} items) := by
  refine ⟨?_, ?_, ?_⟩ <;>
  · unfold RSSFeedBuilder.build RSSFeedBuilder.chanLines
    rfl
